import Mathlib

/-!
# gen-books: template cache, render sink, entity renderers and chapter fan-out

A shallow embedding of `cmd/gen-books/gen_book.go`.

* The sequential part (template cache, `execTemplateToFileSilentMaybeMust`,
  `genArticle`, `genChapter`, `genBook`) is written in state-passing style over
  `State`, whose `trace` field records every call made to an external
  collaborator together with the result that call gave.
* The outside world (file system, template engine, minifier, flags) is an
  `Env` of result functions.  Each of them takes the number of external calls
  made so far as first argument, so the world may answer the same call
  differently at different times.
* `genBook` runs its chapter goroutines one after the other in launch order;
  `genBookSched` runs them under an arbitrary schedule, one statement of
  `genChapter` per step.
* The synchronisation of the chapter fan-out (lines 249-258) is modelled as an
  interleaving transition system (`FanOut`), and the unsynchronised counter
  update of lines 96-97 as a two-step load/store machine (`Race`).
-/

namespace GenBooks

/-! ## Data model -/

/-- Contents of a `bytes.Buffer` / `[]byte`. -/
abbrev Bytes := List UInt8

/-- A `*template.Template` returned by `template.ParseFiles`: `id` is the
identity of the allocation (two parses never give the same instance), `path`
the file it was parsed from. -/
structure Template where
  id : Nat
  path : String
deriving DecidableEq, Repr

/-- The parts of `Article` that `gen_book.go` uses: the results of the methods
`CanonnicalURL()` and `destFilePath()`. -/
structure Article where
  canonnicalURL : String
  destFilePath : String

/-- The parts of `Chapter` that `gen_book.go` uses: the fields `Articles` and
`images`, and the results of the methods `CanonnicalURL()`, `destFilePath()`
and `destImagePath(imageName)`. -/
structure Chapter where
  Articles : List Article
  images : List String
  canonnicalURL : String
  destFilePath : String
  destImagePath : String → String

/-- The parts of `Book` that the sequential code of `gen_book.go` uses.  The
fields `sem` and `wg` live in the state of the `FanOut` system below. -/
structure Book where
  Title : String
  destDir : String
  Chapters : List Chapter
  canonnicalURL : String

/-- The method `book.ArticlesCount()`: the number of articles of all chapters. -/
def Book.ArticlesCount (book : Book) : Nat :=
  (book.Chapters.map (fun chapter => chapter.Articles.length)).sum

/-- The anonymous structs handed to `tmpl.Execute` as data binding.  The site
chrome (`Analytics`, `PathMainCSS`, ...) is the same constant everywhere and
is left out. -/
inductive Data where
  | book (book : Book)
  | chapter (chapter : Chapter) (currentChapterNo : Nat)
  | article (article : Article) (currentChapterNo : Nat)
  | site

/-- One call to an external collaborator, with the result it gave. -/
inductive Event where
  | parseFiles (path : String) (ok : Bool)
  | execute (tmpl : Template) (data : Data) (out : Bytes) (err : Bool)
  | minify (d : Bytes) (res : Option Bytes)
  | writeFile (path : String) (d : Bytes) (ok : Bool)
  | addSitemapURL (url : String)
  | copyFile (dst : String) (src : String) (ok : Bool)
  | mkdirAll (path : String) (ok : Bool)
  | genBookTOCSearch (title : String) (ok : Bool)

/-- The world around the generator.  The first argument of every result
function is the number of external calls made before this one. -/
structure Env where
  /-- Whether `maybePanicIfErr` panics when it is handed a non-nil error. -/
  panicOnErr : Bool
  /-- The flag `doMinifiy`. -/
  doMinifiy : Bool
  /-- Go's `filepath.Join` on two elements. -/
  filepathJoin : String → String → String
  /-- Go's `filepath.Base`. -/
  filepathBase : String → String
  /-- Whether `template.ParseFiles(path)` returns a nil error. -/
  parseFiles : Nat → String → Bool
  /-- What `tmpl.Execute(&buf, data)` leaves in the buffer, and whether it
  returns a non-nil error. -/
  execute : Nat → Template → Data → Bytes × Bool
  /-- Result of `minifier.Bytes("text/html", d)`: `none` is a non-nil error. -/
  minify : Nat → Bytes → Option Bytes
  /-- Whether `ioutil.WriteFile(path, d, 0644)` returns a nil error. -/
  writeFile : Nat → String → Bytes → Bool
  /-- Whether `os.MkdirAll(path, 0755)` returns a nil error. -/
  mkdirAll : Nat → String → Bool
  /-- Whether copying `src` to `dst` succeeds. -/
  copyFile : Nat → String → String → Bool
  /-- Whether the table-of-contents / search index of the book can be built. -/
  genBookTOCSearch : Nat → Book → Bool

/-- The package-level variables of `gen_book.go` that change, plus the record
of external calls.  The two byte counters are Go `int`s; they only ever grow
by the length of a buffer held in memory, and a run would have to produce 2^63
bytes of HTML to wrap them, so they are natural numbers here. -/
structure State where
  /-- The slice `templates`, parallel to `templateNames`. -/
  templates : List (Option Template)
  totalHTMLBytes : Nat
  totalHTMLBytesMinified : Nat
  /-- Number of template instances allocated so far. -/
  nextTemplate : Nat
  trace : List Event

/-- The two ways the process is terminated from inside this file. -/
inductive Fatal where
  | unknownTemplate (name : String)
  | panic
deriving DecidableEq, Repr

/-- How a call ends: it returns a value, or the process is terminated. -/
inductive Outcome (α : Type) where
  | ok (a : α)
  | fatal (f : Fatal)
deriving DecidableEq

/-- A Go function of this file: from the state before the call to how the call
ends and the state at that moment. -/
abbrev M (α : Type) := State → Outcome α × State

/-- Run `m`, then `f` on its result; a fatal outcome ends the run there. -/
def andThen {α β : Type} (m : M α) (f : α → M β) : M β := fun s =>
  match m s with
  | (Outcome.ok a, s1) => f a s1
  | (Outcome.fatal e, s1) => (Outcome.fatal e, s1)

/-- A `for _, x := range xs { f(x) }` loop. -/
def forEach {α : Type} (xs : List α) (f : α → M Unit) : M Unit :=
  match xs with
  | [] => fun s => (Outcome.ok (), s)
  | x :: rest => andThen (f x) (fun _ => forEach rest f)

/-- Append one external call to the record. -/
def State.log (s : State) (e : Event) : State :=
  { s with trace := s.trace ++ [e] }

/-! ## Constants and the template cache (lines 14-80) -/

def tmplDir : String := "tmpl"

def templateNames : List String :=
  [ "index.tmpl.html",
    "index-grid.tmpl.html",
    "book_index.tmpl.html",
    "chapter.tmpl.html",
    "article.tmpl.html",
    "about.tmpl.html",
    "feedback.tmpl.html" ]

/-- The value `make([]*template.Template, len(templateNames))`. -/
def emptyTemplates : List (Option Template) :=
  List.replicate templateNames.length none

/-- The state at process start. -/
def State.init : State :=
  { templates := emptyTemplates, totalHTMLBytes := 0, totalHTMLBytesMinified := 0,
    nextTemplate := 0, trace := [] }

def unloadTemplates : M Unit := fun s =>
  (Outcome.ok (), { s with templates := emptyTemplates })

def tmplPath (env : Env) (name : String) : String :=
  env.filepathJoin tmplDir name

/-- The helper `maybePanicIfErr(err)`, whose body is not in this file.  By its
name and by the `if err != nil { return ... }` that follows two of its calls, it
never panics on a nil error and may or may not panic on a non-nil one; which of
the two is the parameter `env.panicOnErr`. -/
def maybePanicIfErr (env : Env) (err : Bool) : M Unit := fun s =>
  if err && env.panicOnErr then (Outcome.fatal Fatal.panic, s) else (Outcome.ok (), s)

/-- The function `loadTemplateHelperMaybeMust(name, ref)`; the pointer `ref` is
`&templates[ref]`, given by its index. -/
def loadTemplateHelperMaybeMust (env : Env) (name : String) (ref : Nat) : M (Option Template) :=
  fun s =>
    match s.templates.getD ref none with
    | some res => (Outcome.ok (some res), s)
    | none =>
      let path := tmplPath env name
      let ok := env.parseFiles s.trace.length path
      let s1 := s.log (Event.parseFiles path ok)
      andThen (maybePanicIfErr env (!ok)) (fun _ s2 =>
        if !ok then (Outcome.ok none, s2)
        else
          let t : Template := { id := s2.nextTemplate, path := path }
          (Outcome.ok (some t),
            { s2 with templates := s2.templates.set ref (some t),
                      nextTemplate := s2.nextTemplate + 1 })) s1

/-- The search loop of `loadTemplateMaybeMust`: the first index `i` (counted
from `i0`) with `names[i] == name`. -/
def findRef (names : List String) (name : String) (i0 : Nat) : Option Nat :=
  match names with
  | [] => none
  | tmplName :: rest => if tmplName == name then some i0 else findRef rest name (i0 + 1)

def loadTemplateMaybeMust (env : Env) (name : String) : M (Option Template) := fun s =>
  match findRef templateNames name 0 with
  | none => (Outcome.fatal (Fatal.unknownTemplate name), s)
  | some ref => loadTemplateHelperMaybeMust env name ref s

/-! ## The render sink (lines 82-107) -/

/-- Lines 92-100: the minification step on the executed buffer `d`. -/
def minifyStep (env : Env) (d : Bytes) : M Bytes := fun s =>
  if env.doMinifiy then
    let res := env.minify s.trace.length d
    let s1 := s.log (Event.minify d res)
    andThen (maybePanicIfErr env res.isNone) (fun _ s2 =>
      match res with
      | some d2 =>
        (Outcome.ok d2,
          { s2 with totalHTMLBytes := s2.totalHTMLBytes + d.length,
                    totalHTMLBytesMinified := s2.totalHTMLBytesMinified + d2.length })
      | none => (Outcome.ok d, s2)) s1
  else (Outcome.ok d, s)

/-- Lines 101-102: `ioutil.WriteFile(path, d, 0644)` and its error check. -/
def writeStep (env : Env) (path : String) (d : Bytes) : M Unit := fun s =>
  let ok := env.writeFile s.trace.length path d
  maybePanicIfErr env (!ok) (s.log (Event.writeFile path d ok))

/-- Lines 87-89: `tmpl.Execute(&buf, data)` and its error check; the result is
`buf.Bytes()`. -/
def executeStep (env : Env) (tmpl : Template) (data : Data) : M Bytes := fun s =>
  let r := env.execute s.trace.length tmpl data
  andThen (maybePanicIfErr env r.2) (fun _ s2 => (Outcome.ok r.1, s2))
    (s.log (Event.execute tmpl data r.1 r.2))

/-- Lines 87-102: what `execTemplateToFileSilentMaybeMust` does once the
template `tmpl` is there. -/
def renderLoaded (env : Env) (tmpl : Template) (data : Data) (path : String) : M Unit :=
  andThen (executeStep env tmpl data) (fun d =>
    andThen (minifyStep env d) (fun d1 => writeStep env path d1))

def execTemplateToFileSilentMaybeMust (env : Env) (name : String) (data : Data)
    (path : String) : M Unit :=
  andThen (loadTemplateMaybeMust env name) (fun tmpl =>
    match tmpl with
    | none => fun s => (Outcome.ok (), s)
    | some t => renderLoaded env t data path)

def execTemplateToFileMaybeMust (env : Env) (name : String) (data : Data)
    (path : String) : M Unit :=
  execTemplateToFileSilentMaybeMust env name data path

/-! ## Collaborators whose bodies are not in this file -/

/-- Modelled from the spec: the sitemap collector `addSitemapURL(canonicalURL)`,
whose body is missing here; it is append-only and has no failure mode. -/
def addSitemapURL (url : String) : M Unit := fun s =>
  (Outcome.ok (), s.log (Event.addSitemapURL url))

/-- Modelled from the spec: the file copier `copyFileMaybeMust(dst, src)`, whose
body is missing here.  The specification calls a failed copy fatal; as the
name of the function says, it is so when `maybePanicIfErr` panics. -/
def copyFileMaybeMust (env : Env) (dst : String) (src : String) : M Unit := fun s =>
  let ok := env.copyFile s.trace.length dst src
  maybePanicIfErr env (!ok) (s.log (Event.copyFile dst src ok))

/-- Modelled from the spec: the search / table-of-contents index builder
`genBookTOCSearchMust(book)`, whose body is missing here; fatal on failure. -/
def genBookTOCSearchMust (env : Env) (book : Book) : M Unit := fun s =>
  let ok := env.genBookTOCSearch s.trace.length book
  let s1 := s.log (Event.genBookTOCSearch book.Title ok)
  if ok then (Outcome.ok (), s1) else (Outcome.fatal Fatal.panic, s1)

/-! ## Entity renderers (lines 175-261) -/

def genArticle (env : Env) (article : Article) (currChapNo : Nat) : M Unit :=
  andThen (addSitemapURL article.canonnicalURL) (fun _ =>
    execTemplateToFileSilentMaybeMust env "article.tmpl.html"
      (Data.article article currChapNo) article.destFilePath)

def genChapter (env : Env) (chapter : Chapter) (currNo : Nat) : M Unit :=
  andThen (addSitemapURL chapter.canonnicalURL) (fun _ =>
  andThen (forEach chapter.Articles (fun article => genArticle env article currNo)) (fun _ =>
  andThen (execTemplateToFileSilentMaybeMust env "chapter.tmpl.html"
      (Data.chapter chapter currNo) chapter.destFilePath) (fun _ =>
  forEach chapter.images (fun imagePath =>
    copyFileMaybeMust env (chapter.destImagePath (env.filepathBase imagePath)) imagePath))))

/-- The loop of lines 249-257 with every goroutine run to completion at the
point where it is launched; `i` is the loop index of the first chapter of
`chapters`.  This is the schedule the limiter forces when its capacity is 1,
and one of the admissible schedules otherwise. -/
def chapterLoop (env : Env) (chapters : List Chapter) (i : Nat) : M Unit :=
  match chapters with
  | [] => fun s => (Outcome.ok (), s)
  | chapter :: rest =>
    andThen (genChapter env chapter (i + 1)) (fun _ => chapterLoop env rest (i + 1))

/-- Lines 228-232: `os.MkdirAll(book.destDir, 0755)` and its error check; the
result says whether `err` is nil. -/
def mkdirStep (env : Env) (book : Book) : M Bool := fun s =>
  let ok := env.mkdirAll s.trace.length book.destDir
  andThen (maybePanicIfErr env (!ok)) (fun _ s2 => (Outcome.ok ok, s2))
    (s.log (Event.mkdirAll book.destDir ok))

/-- The body of `genBook(book)` with the chapter loop of lines 249-258 handed in
as `fanOut`: lines 225-247 run on the main goroutine before any chapter
goroutine exists, and `book.wg.Wait()` ends the function after all of them. -/
def genBookWith (env : Env) (book : Book) (fanOut : M Unit) : M Unit :=
  andThen (genBookTOCSearchMust env book) (fun _ =>
  andThen (mkdirStep env book) (fun ok =>
    if !ok then fun s => (Outcome.ok (), s)
    else
      andThen (execTemplateToFileSilentMaybeMust env "book_index.tmpl.html"
        (Data.book book) (env.filepathJoin book.destDir "index.html")) (fun _ =>
      andThen (addSitemapURL book.canonnicalURL) (fun _ =>
      fanOut))))

/-- The function `genBook(book)` under the schedule of `chapterLoop`. -/
def genBook (env : Env) (book : Book) : M Unit :=
  genBookWith env book (chapterLoop env book.Chapters 0)

/-! ### The chapter goroutines under an arbitrary schedule

A goroutine is the list of the statements it runs; one statement (a call to
`addSitemapURL`, to `execTemplateToFileSilentMaybeMust` or to
`copyFileMaybeMust`) is one step.  A schedule names, step by step, the
goroutine that runs its next statement. -/

/-- Run statements one after the other. -/
def seqAll (stmts : List (M Unit)) : M Unit :=
  forEach stmts (fun stmt => stmt)

/-- The statements `genArticle(article, currChapNo)` runs. -/
def genArticleStmts (env : Env) (article : Article) (currChapNo : Nat) : List (M Unit) :=
  [addSitemapURL article.canonnicalURL,
   execTemplateToFileSilentMaybeMust env "article.tmpl.html"
     (Data.article article currChapNo) article.destFilePath]

/-- The statements `genChapter(chapter, currNo)` runs, those of the
`genArticle` calls included. -/
def genChapterStmts (env : Env) (chapter : Chapter) (currNo : Nat) : List (M Unit) :=
  [addSitemapURL chapter.canonnicalURL]
    ++ (chapter.Articles.map (fun article => genArticleStmts env article currNo)).flatten
    ++ [execTemplateToFileSilentMaybeMust env "chapter.tmpl.html"
          (Data.chapter chapter currNo) chapter.destFilePath]
    ++ chapter.images.map (fun imagePath =>
        copyFileMaybeMust env (chapter.destImagePath (env.filepathBase imagePath)) imagePath)

/-- The goroutines the loop of line 249 launches, in launch order; `i` is the
loop index of the first chapter of `chapters`. -/
def chapterThreads (env : Env) (chapters : List Chapter) (i : Nat) : List (List (M Unit)) :=
  match chapters with
  | [] => []
  | chapter :: rest => genChapterStmts env chapter (i + 1) :: chapterThreads env rest (i + 1)

/-- Run the goroutines `threads` under the schedule `sched`: at each entry `i`
goroutine `i` runs its next statement (an entry naming a goroutine with nothing
left to run is skipped); when the schedule is used up, what is left runs
goroutine by goroutine.  A fatal outcome ends everything. -/
def runThreads (threads : List (List (M Unit))) (sched : List Nat) : M Unit :=
  match sched with
  | [] => forEach threads seqAll
  | i :: rest =>
    match threads.get? i with
    | some (stmt :: more) => andThen stmt (fun _ => runThreads (threads.set i more) rest)
    | _ => runThreads threads rest

/-- The function `genBook(book)` with its chapter goroutines interleaved as
`sched` says. -/
def genBookSched (env : Env) (book : Book) (sched : List Nat) : M Unit :=
  genBookWith env book (runThreads (chapterThreads env book.Chapters 0) sched)

/-- A sequence of render calls made one after the other. -/
def renderAll (env : Env) (calls : List (String × Data × String)) : M Unit :=
  forEach calls (fun c => execTemplateToFileSilentMaybeMust env c.1 c.2.1 c.2.2)

/-! ## Reading the record of external calls -/

/-- The part of the record added between state `s` and a later state `s1`. -/
def newEvents (s s1 : State) : List Event :=
  s1.trace.drop s.trace.length

def Event.isSitemap : Event → Bool
  | Event.addSitemapURL _ => true
  | _ => false

def Event.isParse : Event → Bool
  | Event.parseFiles _ _ => true
  | _ => false

/-- Destination of a file write. -/
def Event.writePath : Event → Option String
  | Event.writeFile path _ _ => some path
  | _ => none

/-- Destination and content of a file write. -/
def Event.written : Event → Option (String × Bytes)
  | Event.writeFile path d _ => some (path, d)
  | _ => none

/-- Contribution of one external call to `totalHTMLBytes`: the length of the
input of a minifier call that succeeded. -/
def Event.rawLen : Event → Nat
  | Event.minify d (some _) => d.length
  | _ => 0

/-- Contribution of one external call to `totalHTMLBytesMinified`: the length
of the output of a minifier call that succeeded. -/
def Event.minLen : Event → Nat
  | Event.minify _ (some d2) => d2.length
  | _ => 0

/-- An effect of a generation run with the results taken off: what was asked
of the sitemap collector, the template engine, the file system and the file
copier. -/
inductive Call where
  | addSitemapURL (url : String)
  | execute (tmplPath : String) (data : Data)
  | writeFile (path : String)
  | copyFile (dst : String) (src : String)

/-- The effect an external call stands for; reading a template file, the
minifier, directory creation and the index builder are left out. -/
def Event.call : Event → Option Call
  | Event.addSitemapURL url => some (Call.addSitemapURL url)
  | Event.execute tmpl data _ _ => some (Call.execute tmpl.path data)
  | Event.writeFile path _ _ => some (Call.writeFile path)
  | Event.copyFile dst src _ => some (Call.copyFile dst src)
  | _ => none

def calls (evs : List Event) : List Call :=
  evs.filterMap Event.call

def Call.isSitemap : Call → Bool
  | Call.addSitemapURL _ => true
  | _ => false

def Call.writePath : Call → Option String
  | Call.writeFile path => some path
  | _ => none

/-- URL handed to the sitemap collector. -/
def Call.url : Call → Option String
  | Call.addSitemapURL url => some url
  | _ => none

/-- The cache is as the code keeps it: as long as `templateNames`, and every
cached instance was parsed from the file of the name at its index. -/
def State.WF (env : Env) (s : State) : Prop :=
  s.templates.length = templateNames.length ∧
  ∀ i t, s.templates.getD i none = some t →
    ∃ name, templateNames.get? i = some name ∧ t.path = tmplPath env name

/-- No collaborator ever reports an error. -/
def Env.NoFailure (env : Env) : Prop :=
  (∀ n path, env.parseFiles n path = true) ∧
  (∀ n t data, (env.execute n t data).2 = false) ∧
  (∀ n d, (env.minify n d).isSome = true) ∧
  (∀ n path d, env.writeFile n path d = true) ∧
  (∀ n path, env.mkdirAll n path = true) ∧
  (∀ n dst src, env.copyFile n dst src = true) ∧
  (∀ n book, env.genBookTOCSearch n book = true)

/-- Every template file can be parsed. -/
def Env.Loadable (env : Env) : Prop :=
  ∀ n path, env.parseFiles n path = true

/-- What one render of `data` with template `name` to `path` asks for. -/
def renderCalls (env : Env) (name : String) (data : Data) (path : String) : List Call :=
  [Call.execute (tmplPath env name) data, Call.writeFile path]

/-- The effects of `genArticle(article, n)`, in order. -/
def articleCalls (env : Env) (article : Article) (n : Nat) : List Call :=
  Call.addSitemapURL article.canonnicalURL ::
    renderCalls env "article.tmpl.html" (Data.article article n) article.destFilePath

/-- The effects the specification lists for `genChapter(chapter, n)`, in its
order: the chapter URL, every article in sequence (URL, then page), the
chapter page, the image copies. -/
def chapterCalls (env : Env) (chapter : Chapter) (n : Nat) : List Call :=
  [Call.addSitemapURL chapter.canonnicalURL]
    ++ (chapter.Articles.map (fun article => articleCalls env article n)).flatten
    ++ renderCalls env "chapter.tmpl.html" (Data.chapter chapter n) chapter.destFilePath
    ++ chapter.images.map (fun imagePath =>
        Call.copyFile (chapter.destImagePath (env.filepathBase imagePath)) imagePath)

/-- The effects of the chapters `chapters`, the first of which has 0-based
index `i`: the chapter at index `j` is generated with number `j + 1`. -/
def chaptersCalls (env : Env) (chapters : List Chapter) (i : Nat) : List Call :=
  match chapters with
  | [] => []
  | chapter :: rest => chapterCalls env chapter (i + 1) ++ chaptersCalls env rest (i + 1)

/-- The effects of a whole `genBook(book)`. -/
def bookCalls (env : Env) (book : Book) : List Call :=
  renderCalls env "book_index.tmpl.html" (Data.book book)
      (env.filepathJoin book.destDir "index.html")
    ++ [Call.addSitemapURL book.canonnicalURL]
    ++ chaptersCalls env book.Chapters 0

/-- Go's `filepath.Join` on Unix for two clean, non-empty, relative elements. -/
def unixJoin (a b : String) : String :=
  a ++ "/" ++ b

/-- Go's `filepath.Base` on Unix: trailing separators are stripped, the last
element is kept; the empty path gives ".", a path of separators gives "/". -/
def unixBase (path : String) : String :=
  if path = "" then "."
  else
    let stripped := path.data.reverse.dropWhile (fun c => c == '/')
    let last := stripped.takeWhile (fun c => c != '/')
    if last.isEmpty then "/" else String.mk last.reverse

/-- A world in which nothing fails; minification keeps the first two bytes. -/
def allOk : Env :=
  { panicOnErr := true,
    doMinifiy := true,
    filepathJoin := unixJoin,
    filepathBase := unixBase,
    parseFiles := fun _ _ => true,
    execute := fun _ _ _ => ([60, 104, 49, 62], false),
    minify := fun _ d => some (d.take 2),
    writeFile := fun _ _ _ => true,
    mkdirAll := fun _ _ => true,
    copyFile := fun _ _ _ => true,
    genBookTOCSearch := fun _ _ => true }

def article11 : Article := { canonnicalURL := "/go/a11", destFilePath := "www/go/a11.html" }
def article12 : Article := { canonnicalURL := "/go/a12", destFilePath := "www/go/a12.html" }
def article21 : Article := { canonnicalURL := "/go/a21", destFilePath := "www/go/a21.html" }
def article22 : Article := { canonnicalURL := "/go/a22", destFilePath := "www/go/a22.html" }
def article31 : Article := { canonnicalURL := "/go/a31", destFilePath := "www/go/a31.html" }
def article32 : Article := { canonnicalURL := "/go/a32", destFilePath := "www/go/a32.html" }

def chapter1 : Chapter :=
  { Articles := [article11, article12], images := ["books/go/c1/gopher.png"],
    canonnicalURL := "/go/c1", destFilePath := "www/go/c1.html",
    destImagePath := fun imageName => "www/go/c1/" ++ imageName }

def chapter2 : Chapter :=
  { Articles := [article21, article22], images := [],
    canonnicalURL := "/go/c2", destFilePath := "www/go/c2.html",
    destImagePath := fun imageName => "www/go/c2/" ++ imageName }

def chapter3 : Chapter :=
  { Articles := [article31, article32], images := [],
    canonnicalURL := "/go/c3", destFilePath := "www/go/c3.html",
    destImagePath := fun imageName => "www/go/c3/" ++ imageName }

/-- A book of three chapters with two articles each. -/
def book3x2 : Book :=
  { Title := "Go", destDir := "www/go", Chapters := [chapter1, chapter2, chapter3],
    canonnicalURL := "/go" }

/-! ## The chapter fan-out as a transition system (lines 249-258)

The main goroutine and the goroutines it launches, one per chapter, take turns
in any order.  `book.sem` is a buffered channel of capacity `K`, of which only
the number of buffered values matters; `book.wg` is a counter.  Both are taken
to be empty, respectively zero, when `genBook` is entered. -/

namespace FanOut

/-- Where the goroutine of one chapter stands. -/
inductive Worker where
  /-- The `go` statement of line 252 has not run for this chapter. -/
  | notLaunched
  /-- The goroutine exists and has not called `genChapter` yet. -/
  | launched
  /-- Inside the call `genChapter(chap, idx)` of line 253. -/
  | inChapter
  /-- The call of line 253 has returned; `book.wg.Done()` has not run. -/
  | finished
  /-- Line 254, `book.wg.Done()`, has run; `<-book.sem` has not. -/
  | signalled
  /-- Line 255, `<-book.sem`, has run: the goroutine is over. -/
  | exited
deriving DecidableEq, Repr

/-- Where the main goroutine stands; `i` is the loop index of line 249. -/
inductive MainPC where
  /-- About to run `book.sem <- true` (line 250) for chapter `i`. -/
  | send (i : Nat)
  /-- About to run `book.wg.Add(1)` (line 251) for chapter `i`. -/
  | add (i : Nat)
  /-- About to run the `go` statement (line 252) for chapter `i`. -/
  | spawn (i : Nat)
  /-- About to run, or blocked in, `book.wg.Wait()` (line 258). -/
  | wait
  /-- Past `book.wg.Wait()`. -/
  | returned
deriving DecidableEq, Repr

structure Cfg where
  pc : MainPC
  workers : List Worker
  /-- Number of values buffered in `book.sem`. -/
  sem : Nat
  /-- The counter of `book.wg`. -/
  wg : Nat
deriving DecidableEq, Repr

/-- Who takes the next step. -/
inductive Action where
  | main
  | worker (i : Nat)
deriving DecidableEq, Repr

/-- The state on entry to the loop of line 249, for a book of `N` chapters. -/
def init (N : Nat) : Cfg :=
  { pc := if 0 < N then MainPC.send 0 else MainPC.wait,
    workers := List.replicate N Worker.notLaunched,
    sem := 0,
    wg := 0 }

/-- The loop header after the body has run for index `i`. -/
def nextIter (N i : Nat) : MainPC :=
  if i + 1 < N then MainPC.send (i + 1) else MainPC.wait

/-- One step of the main goroutine; `none` when it is blocked or over. -/
def stepMain (N K : Nat) (c : Cfg) : Option Cfg :=
  match c.pc with
  | MainPC.send i =>
    if c.sem < K then some { c with sem := c.sem + 1, pc := MainPC.add i } else none
  | MainPC.add i => some { c with wg := c.wg + 1, pc := MainPC.spawn i }
  | MainPC.spawn i =>
    some { c with workers := c.workers.set i Worker.launched, pc := nextIter N i }
  | MainPC.wait => if c.wg = 0 then some { c with pc := MainPC.returned } else none
  | MainPC.returned => none

/-- One step of the goroutine of chapter `i`; `none` when it does not exist, is
blocked or is over.  `book.wg.Done()` on a zero counter panics in Go: no
successor. -/
def stepWorker (c : Cfg) (i : Nat) : Option Cfg :=
  match c.workers.get? i with
  | some Worker.launched => some { c with workers := c.workers.set i Worker.inChapter }
  | some Worker.inChapter => some { c with workers := c.workers.set i Worker.finished }
  | some Worker.finished =>
    if c.wg = 0 then none
    else some { c with wg := c.wg - 1, workers := c.workers.set i Worker.signalled }
  | some Worker.signalled =>
    if 0 < c.sem then some { c with sem := c.sem - 1, workers := c.workers.set i Worker.exited }
    else none
  | _ => none

def step (N K : Nat) (c : Cfg) : Action → Option Cfg
  | Action.main => stepMain N K c
  | Action.worker i => stepWorker c i

/-- Run a schedule; `none` when it asks for a step that cannot be taken. -/
def run (N K : Nat) (c : Cfg) : List Action → Option Cfg
  | [] => some c
  | a :: rest =>
    match step N K c a with
    | some c1 => run N K c1 rest
    | none => none

/-- The configurations some interleaving reaches. -/
def Reachable (N K : Nat) (c : Cfg) : Prop :=
  ∃ sched, run N K (init N) sched = some c

def Worker.rendering : Worker → Bool
  | Worker.inChapter => true
  | _ => false

/-- The call `genChapter` of this chapter has returned. -/
def Worker.rendered : Worker → Bool
  | Worker.finished => true
  | Worker.signalled => true
  | Worker.exited => true
  | _ => false

/-- The goroutine has been given a slot of `book.sem` and not given it back. -/
def Worker.holdsSlot : Worker → Bool
  | Worker.launched => true
  | Worker.inChapter => true
  | Worker.finished => true
  | Worker.signalled => true
  | _ => false

/-- The goroutine is counted in `book.wg`. -/
def Worker.counted : Worker → Bool
  | Worker.launched => true
  | Worker.inChapter => true
  | Worker.finished => true
  | _ => false

/-- Number of chapter renders that have started and not yet finished. -/
def inFlight (c : Cfg) : Nat :=
  c.workers.countP Worker.rendering

/-- The slot the main goroutine has taken for a goroutine not yet launched. -/
def mainSlot : MainPC → Nat
  | MainPC.add _ => 1
  | MainPC.spawn _ => 1
  | _ => 0

/-- The count the main goroutine has added for a goroutine not yet launched. -/
def mainCount : MainPC → Nat
  | MainPC.spawn _ => 1
  | _ => 0

/-- Number of chapters for which the `go` statement has run. -/
def launchedUpTo (N : Nat) : MainPC → Nat
  | MainPC.send i => i
  | MainPC.add i => i
  | MainPC.spawn i => i
  | MainPC.wait => N
  | MainPC.returned => N

/-- The invariant of the fan-out: the slots of `book.sem` in use and the count
of `book.wg` are those of the goroutines that hold them, plus what the main
goroutine has taken for the goroutine it is about to launch. -/
structure Inv (N K : Nat) (c : Cfg) : Prop where
  len : c.workers.length = N
  slots : c.sem = c.workers.countP Worker.holdsSlot + mainSlot c.pc
  bound : c.sem ≤ K
  count : c.wg = c.workers.countP Worker.counted + mainCount c.pc
  idx : ∀ i, c.pc = MainPC.send i ∨ c.pc = MainPC.add i ∨ c.pc = MainPC.spawn i → i < N
  fresh : ∀ j, j < N →
    (c.workers.get? j = some Worker.notLaunched ↔ launchedUpTo N c.pc ≤ j)
  joined : c.pc = MainPC.returned → c.wg = 0

/-- The configuration in which the goroutines of the workers `done` are over,
the main goroutine is at `pc` and the remaining `n` chapters are untouched. -/
def between (pc : MainPC) (done : List Worker) (n : Nat) : Cfg :=
  { pc := pc, workers := done ++ List.replicate n Worker.notLaunched, sem := 0, wg := 0 }

/-- The schedule in which every goroutine runs to its end as soon as it is
launched; `i` is the index of the first chapter still to launch, the second
argument the number of chapters still to launch. -/
def seqSchedule : Nat → Nat → List Action
  | _, 0 => [Action.main]
  | i, n + 1 =>
    [Action.main, Action.main, Action.main, Action.worker i, Action.worker i,
      Action.worker i, Action.worker i] ++ seqSchedule (i + 1) n

/-- A schedule for three chapters and capacity 2 after which the first two
chapters are being rendered. -/
def twoAtOnce : List Action :=
  [Action.main, Action.main, Action.main, Action.worker 0, Action.main, Action.main,
    Action.main, Action.worker 1]

/-- The configuration `twoAtOnce` leads to. -/
def twoInFlight : Cfg :=
  { pc := MainPC.send 2,
    workers := [Worker.inChapter, Worker.inChapter, Worker.notLaunched],
    sem := 2,
    wg := 2 }

/-- A schedule for two chapters and capacity 1 that ends past `book.wg.Wait()`
while the second goroutine has not yet given its slot back. -/
def joinEarly : List Action :=
  [Action.main, Action.main, Action.main, Action.worker 0, Action.worker 0, Action.worker 0,
    Action.worker 0, Action.main, Action.main, Action.main, Action.worker 1, Action.worker 1,
    Action.worker 1, Action.main]

/-- The configuration `joinEarly` leads to. -/
def joined : Cfg :=
  { pc := MainPC.returned,
    workers := [Worker.exited, Worker.signalled],
    sem := 1,
    wg := 0 }

end FanOut

/-! ## The counter update of lines 96-97 as the machine runs it

`totalHTMLBytes += len(d)` and `totalHTMLBytesMinified += len(d2)` are plain
assignments to package-level variables of type `int`: a load, an addition and a
store each, with no lock and no atomic operation around them. -/

namespace Race

/-- The two shared counters. -/
structure Mem where
  totalHTMLBytes : Nat
  totalHTMLBytesMinified : Nat
deriving DecidableEq, Repr

/-- A goroutine about to run lines 96-97, with its `len(d)` and `len(d2)`, its
position (0: before the load of line 96, 1: before its store, 2: before the
load of line 97, 3: before its store, 4: past both) and the value it loaded
last. -/
structure Thread where
  lenD : Nat
  lenD2 : Nat
  pc : Nat
  reg : Nat
deriving DecidableEq, Repr

def Thread.start (lenD lenD2 : Nat) : Thread :=
  { lenD := lenD, lenD2 := lenD2, pc := 0, reg := 0 }

def stepThread (m : Mem) (t : Thread) : Mem × Thread :=
  match t.pc with
  | 0 => (m, { t with reg := m.totalHTMLBytes, pc := 1 })
  | 1 => ({ m with totalHTMLBytes := t.reg + t.lenD }, { t with pc := 2 })
  | 2 => (m, { t with reg := m.totalHTMLBytesMinified, pc := 3 })
  | 3 => ({ m with totalHTMLBytesMinified := t.reg + t.lenD2 }, { t with pc := 4 })
  | _ => (m, t)

/-- The goroutine with index `i` takes one step. -/
def step (c : Mem × List Thread) (i : Nat) : Mem × List Thread :=
  match c.2.get? i with
  | none => c
  | some t => ((stepThread c.1 t).1, c.2.set i (stepThread c.1 t).2)

def run (c : Mem × List Thread) (sched : List Nat) : Mem × List Thread :=
  sched.foldl step c

/-- Every goroutine is past line 97. -/
def allDone (ts : List Thread) : Bool :=
  ts.all (fun t => t.pc == 4)

end Race

/-- The step from `s` to `s1` added exactly the external calls `new` to the
record, moved the two byte counters by what the successful minifier calls among
them contribute, and kept the cache as the code keeps it. -/
def Extends (env : Env) (s s1 : State) (new : List Event) : Prop :=
  s1.trace = s.trace ++ new ∧
  s1.totalHTMLBytes = s.totalHTMLBytes + (new.map Event.rawLen).sum ∧
  s1.totalHTMLBytesMinified = s.totalHTMLBytesMinified + (new.map Event.minLen).sum ∧
  (s.WF env → s1.WF env)

/-- From every well-formed state, `m` asks for the effects `exp`, in this order:
all of them when it returns, a first part of them when the process is
terminated on the way; and it returns when no collaborator fails. -/
def Emits (env : Env) (exp : List Call) (m : M Unit) : Prop :=
  ∀ s : State, s.WF env →
    ∃ new, Extends env s (m s).2 new ∧
      calls new <+: exp ∧
      ((m s).1 = Outcome.ok () → calls new = exp) ∧
      (env.NoFailure → (m s).1 = Outcome.ok ())

/-- From every well-formed state, a run of `m` that returns has asked for the
effects `exp`, each as often as it occurs in `exp`, in some order; and `m`
returns when no collaborator fails. -/
def EmitsPerm (env : Env) (exp : List Call) (m : M Unit) : Prop :=
  ∀ s : State, s.WF env →
    ∃ new, Extends env s (m s).2 new ∧
      ((m s).1 = Outcome.ok () → (calls new).Perm exp) ∧
      (env.NoFailure → (m s).1 = Outcome.ok ())

/-- The effects of the statements of `genArticle`, one list per statement. -/
def articleStmtCalls (env : Env) (article : Article) (n : Nat) : List (List Call) :=
  [[Call.addSitemapURL article.canonnicalURL],
   renderCalls env "article.tmpl.html" (Data.article article n) article.destFilePath]

/-- The effects of the statements of `genChapter`, one list per statement. -/
def chapterStmtCalls (env : Env) (chapter : Chapter) (n : Nat) : List (List Call) :=
  [[Call.addSitemapURL chapter.canonnicalURL]]
    ++ (chapter.Articles.map (fun article => articleStmtCalls env article n)).flatten
    ++ [renderCalls env "chapter.tmpl.html" (Data.chapter chapter n) chapter.destFilePath]
    ++ chapter.images.map (fun imagePath =>
        [Call.copyFile (chapter.destImagePath (env.filepathBase imagePath)) imagePath])

/-- The effects of the goroutines of `chapterThreads`, statement by statement. -/
def threadsCalls (env : Env) (chapters : List Chapter) (i : Nat) : List (List (List Call)) :=
  match chapters with
  | [] => []
  | chapter :: rest => chapterStmtCalls env chapter (i + 1) :: threadsCalls env rest (i + 1)

/-! ## Basic facts about sequencing -/

theorem andThen_ok {α β : Type} (m : M α) (f : α → M β) (s s1 : State) (a : α)
    (h : m s = (Outcome.ok a, s1)) : andThen m f s = f a s1 := by
  simp [andThen, h]

theorem andThen_fatal {α β : Type} (m : M α) (f : α → M β) (s s1 : State) (e : Fatal)
    (h : m s = (Outcome.fatal e, s1)) : andThen m f s = (Outcome.fatal e, s1) := by
  simp [andThen, h]

theorem findRef_ge (names : List String) (name : String) (i0 ref : Nat)
    (h : findRef names name i0 = some ref) : i0 ≤ ref := by
  induction names generalizing i0 with
  | nil => simp [findRef] at h
  | cons x rest ih =>
    simp only [findRef] at h
    split at h
    · simp at h; omega
    · have := ih (i0 + 1) h; omega

theorem findRef_get (names : List String) (name : String) (i0 ref : Nat)
    (h : findRef names name i0 = some ref) : names.get? (ref - i0) = some name := by
  induction names generalizing i0 with
  | nil => simp [findRef] at h
  | cons x rest ih =>
    simp only [findRef] at h
    split at h
    · rename_i hx
      simp at h hx
      subst h
      simp [hx]
    · have hge := findRef_ge rest name (i0 + 1) ref h
      have := ih (i0 + 1) h
      have e : ref - i0 = (ref - (i0 + 1)) + 1 := by omega
      rw [e]
      simpa using this

theorem findRef_none (names : List String) (name : String) (i0 : Nat) :
    findRef names name i0 = none ↔ name ∉ names := by
  induction names generalizing i0 with
  | nil => simp [findRef]
  | cons x rest ih =>
    simp only [findRef]
    split
    · rename_i hx
      simp at hx
      simp [hx]
    · rename_i hx
      simp at hx
      rw [ih]
      simp [Ne.symm hx]

theorem findRef_known (name : String) (h : name ∈ templateNames) :
    ∃ ref, findRef templateNames name 0 = some ref ∧ ref < templateNames.length ∧
      templateNames.get? ref = some name := by
  cases hf : findRef templateNames name 0 with
  | none => exact absurd h ((findRef_none _ _ _).1 hf)
  | some ref =>
    have hg := findRef_get _ _ _ _ hf
    simp only [Nat.sub_zero] at hg
    refine ⟨ref, rfl, ?_, hg⟩
    by_contra hlt
    rw [List.get?_eq_none.2 (by omega)] at hg
    exact absurd hg (by simp)

/-! ## The template cache -/

theorem load_unknown (env : Env) (name : String) (s : State) (h : name ∉ templateNames) :
    loadTemplateMaybeMust env name s = (Outcome.fatal (Fatal.unknownTemplate name), s) := by
  have hf := (findRef_none templateNames name 0).2 h
  simp [loadTemplateMaybeMust, hf]

theorem load_hit (env : Env) (name : String) (ref : Nat) (s : State) (t : Template)
    (href : findRef templateNames name 0 = some ref)
    (hc : s.templates.getD ref none = some t) :
    loadTemplateMaybeMust env name s = (Outcome.ok (some t), s) := by
  simp only [loadTemplateMaybeMust, href, loadTemplateHelperMaybeMust, hc]

theorem load_miss_ok (env : Env) (name : String) (ref : Nat) (s : State)
    (href : findRef templateNames name 0 = some ref)
    (hc : s.templates.getD ref none = none)
    (hp : env.parseFiles s.trace.length (tmplPath env name) = true) :
    loadTemplateMaybeMust env name s =
      (Outcome.ok (some { id := s.nextTemplate, path := tmplPath env name }),
        { templates := s.templates.set ref (some { id := s.nextTemplate, path := tmplPath env name }),
          totalHTMLBytes := s.totalHTMLBytes,
          totalHTMLBytesMinified := s.totalHTMLBytesMinified,
          nextTemplate := s.nextTemplate + 1,
          trace := s.trace ++ [Event.parseFiles (tmplPath env name) true] }) := by
  simp only [loadTemplateMaybeMust, href, loadTemplateHelperMaybeMust, hc]
  simp [hp, andThen, maybePanicIfErr, State.log]

theorem load_miss_ok_ex (env : Env) (name : String) (ref : Nat) (s : State)
    (href : findRef templateNames name 0 = some ref)
    (hc : s.templates.getD ref none = none)
    (hp : env.parseFiles s.trace.length (tmplPath env name) = true) :
    ∃ s1, loadTemplateMaybeMust env name s =
        (Outcome.ok (some { id := s.nextTemplate, path := tmplPath env name }), s1) ∧
      s1.templates = s.templates.set ref (some { id := s.nextTemplate, path := tmplPath env name }) ∧
      s1.trace = s.trace ++ [Event.parseFiles (tmplPath env name) true] ∧
      s1.totalHTMLBytes = s.totalHTMLBytes ∧
      s1.totalHTMLBytesMinified = s.totalHTMLBytesMinified :=
  ⟨_, load_miss_ok env name ref s href hc hp, rfl, rfl, rfl, rfl⟩

theorem load_miss_soft (env : Env) (name : String) (ref : Nat) (s : State)
    (href : findRef templateNames name 0 = some ref)
    (hc : s.templates.getD ref none = none)
    (hp : env.parseFiles s.trace.length (tmplPath env name) = false)
    (hm : env.panicOnErr = false) :
    loadTemplateMaybeMust env name s =
      (Outcome.ok none, s.log (Event.parseFiles (tmplPath env name) false)) := by
  simp only [loadTemplateMaybeMust, href, loadTemplateHelperMaybeMust, hc]
  simp [hp, hm, andThen, maybePanicIfErr, State.log]

theorem load_miss_panic (env : Env) (name : String) (ref : Nat) (s : State)
    (href : findRef templateNames name 0 = some ref)
    (hc : s.templates.getD ref none = none)
    (hp : env.parseFiles s.trace.length (tmplPath env name) = false)
    (hm : env.panicOnErr = true) :
    loadTemplateMaybeMust env name s =
      (Outcome.fatal Fatal.panic, s.log (Event.parseFiles (tmplPath env name) false)) := by
  simp only [loadTemplateMaybeMust, href, loadTemplateHelperMaybeMust, hc]
  simp [hp, hm, andThen, maybePanicIfErr, State.log]

/-! ## The render sink -/

theorem render_of_load_some (env : Env) (name : String) (data : Data) (path : String)
    (s s1 : State) (t : Template)
    (h : loadTemplateMaybeMust env name s = (Outcome.ok (some t), s1)) :
    execTemplateToFileSilentMaybeMust env name data path s = renderLoaded env t data path s1 := by
  simp [execTemplateToFileSilentMaybeMust, andThen, h]

theorem render_of_load_none (env : Env) (name : String) (data : Data) (path : String)
    (s s1 : State)
    (h : loadTemplateMaybeMust env name s = (Outcome.ok none, s1)) :
    execTemplateToFileSilentMaybeMust env name data path s = (Outcome.ok (), s1) := by
  simp [execTemplateToFileSilentMaybeMust, andThen, h]

theorem render_of_load_fatal (env : Env) (name : String) (data : Data) (path : String)
    (s s1 : State) (e : Fatal)
    (h : loadTemplateMaybeMust env name s = (Outcome.fatal e, s1)) :
    execTemplateToFileSilentMaybeMust env name data path s = (Outcome.fatal e, s1) := by
  simp [execTemplateToFileSilentMaybeMust, andThen, h]

theorem executeStep_eq (env : Env) (t : Template) (data : Data) (s : State) :
    executeStep env t data s =
      (if (env.execute s.trace.length t data).2 && env.panicOnErr
        then Outcome.fatal Fatal.panic else Outcome.ok (env.execute s.trace.length t data).1,
       s.log (Event.execute t data (env.execute s.trace.length t data).1
         (env.execute s.trace.length t data).2)) := by
  simp only [executeStep, andThen, maybePanicIfErr]
  split_ifs <;> rfl

theorem writeStep_eq (env : Env) (path : String) (d : Bytes) (s : State) :
    writeStep env path d s =
      (if !(env.writeFile s.trace.length path d) && env.panicOnErr
        then Outcome.fatal Fatal.panic else Outcome.ok (),
       s.log (Event.writeFile path d (env.writeFile s.trace.length path d))) := by
  simp only [writeStep, maybePanicIfErr]
  split_ifs <;> rfl

theorem minifyStep_off (env : Env) (d : Bytes) (s : State) (h : env.doMinifiy = false) :
    minifyStep env d s = (Outcome.ok d, s) := by
  simp [minifyStep, h]

theorem minifyStep_some (env : Env) (d d2 : Bytes) (s : State) (h : env.doMinifiy = true)
    (hr : env.minify s.trace.length d = some d2) :
    minifyStep env d s =
      (Outcome.ok d2,
        { templates := s.templates,
          totalHTMLBytes := s.totalHTMLBytes + d.length,
          totalHTMLBytesMinified := s.totalHTMLBytesMinified + d2.length,
          nextTemplate := s.nextTemplate,
          trace := s.trace ++ [Event.minify d (some d2)] }) := by
  simp [minifyStep, h, hr, andThen, maybePanicIfErr, State.log]

theorem minifyStep_none (env : Env) (d : Bytes) (s : State) (h : env.doMinifiy = true)
    (hr : env.minify s.trace.length d = none) :
    minifyStep env d s =
      (if env.panicOnErr then Outcome.fatal Fatal.panic else Outcome.ok d,
        s.log (Event.minify d none)) := by
  simp only [minifyStep, h, hr, andThen, maybePanicIfErr, State.log]
  cases env.panicOnErr <;> simp

/-! ## Bookkeeping of the record and of the counters -/

theorem wf_of_templates_eq (env : Env) (s s1 : State) (h : s1.templates = s.templates)
    (hwf : s.WF env) : s1.WF env := by
  unfold State.WF at *
  rw [h]
  exact hwf

theorem extends_refl (env : Env) (s : State) : Extends env s s [] := by
  simp [Extends]

theorem extends_trans (env : Env) (s s1 s2 : State) (n1 n2 : List Event)
    (h1 : Extends env s s1 n1) (h2 : Extends env s1 s2 n2) :
    Extends env s s2 (n1 ++ n2) := by
  obtain ⟨a1, b1, c1, d1⟩ := h1
  obtain ⟨a2, b2, c2, d2⟩ := h2
  refine ⟨?_, ?_, ?_, fun h => d2 (d1 h)⟩
  · rw [a2, a1, List.append_assoc]
  · rw [b2, b1, List.map_append, List.sum_append, Nat.add_assoc]
  · rw [c2, c1, List.map_append, List.sum_append, Nat.add_assoc]

theorem extends_log (env : Env) (s : State) (e : Event) (h1 : e.rawLen = 0)
    (h2 : e.minLen = 0) : Extends env s (s.log e) [e] := by
  refine ⟨rfl, ?_, ?_, fun h => wf_of_templates_eq env s _ rfl h⟩
  · simp [State.log, h1]
  · simp [State.log, h2]

theorem calls_append (a b : List Event) : calls (a ++ b) = calls a ++ calls b := by
  simp [calls, List.filterMap_append]

theorem renderLoaded_emits (env : Env) (t : Template) (data : Data) (path : String)
    (s : State) :
    ∃ new, Extends env s (renderLoaded env t data path s).2 new ∧
      (renderLoaded env t data path s).2.templates = s.templates ∧
      calls new <+: [Call.execute t.path data, Call.writeFile path] ∧
      ((renderLoaded env t data path s).1 = Outcome.ok () →
        calls new = [Call.execute t.path data, Call.writeFile path]) ∧
      (env.NoFailure → (renderLoaded env t data path s).1 = Outcome.ok ()) := by
  have h1 := executeStep_eq env t data s
  generalize hr : env.execute s.trace.length t data = r at h1
  have hx1 : Extends env s (s.log (Event.execute t data r.1 r.2)) [Event.execute t data r.1 r.2] :=
    extends_log env s _ rfl rfl
  by_cases hE : (r.2 && env.panicOnErr) = true
  · have hres : renderLoaded env t data path s =
        (Outcome.fatal Fatal.panic, s.log (Event.execute t data r.1 r.2)) := by
      unfold renderLoaded
      exact andThen_fatal _ _ _ _ _ (by rw [h1]; simp [hE])
    rw [hres]
    refine ⟨[Event.execute t data r.1 r.2], hx1, rfl, ?_, ?_, ?_⟩
    · simp [calls, Event.call]
    · intro h; simp at h
    · intro hnf
      have := hnf.2.1 s.trace.length t data
      rw [hr] at this
      simp [this] at hE
  · have hstep : executeStep env t data s =
        (Outcome.ok r.1, s.log (Event.execute t data r.1 r.2)) := by
      rw [h1]; simp [hE]
    have hres : renderLoaded env t data path s =
        andThen (minifyStep env r.1) (fun d1 => writeStep env path d1)
          (s.log (Event.execute t data r.1 r.2)) := by
      unfold renderLoaded
      exact andThen_ok _ _ _ _ _ hstep
    rw [hres]
    have hts0 : (s.log (Event.execute t data r.1 r.2)).templates = s.templates := rfl
    generalize s.log (Event.execute t data r.1 r.2) = s1 at hx1 hts0 ⊢
    -- the write, from any state `s2` reached by the minification step
    have hwrite : ∀ (s2 : State) (d : Bytes) (mid : List Event),
        Extends env s1 s2 mid → s2.templates = s1.templates → calls mid = [] →
        ∃ new, Extends env s1 (writeStep env path d s2).2 new ∧
          (writeStep env path d s2).2.templates = s1.templates ∧
          calls new = [Call.writeFile path] ∧
          (env.NoFailure → (writeStep env path d s2).1 = Outcome.ok ()) := by
      intro s2 d mid hmid htm hc
      rw [writeStep_eq]
      refine ⟨mid ++ [Event.writeFile path d (env.writeFile s2.trace.length path d)],
        extends_trans env _ _ _ _ _ hmid (extends_log env s2 _ rfl rfl), htm, ?_, ?_⟩
      · rw [calls_append, hc]; simp [calls, Event.call]
      · intro hnf
        simp [hnf.2.2.2.1 s2.trace.length path d]
    -- assemble
    have hfin : ∀ (s2 : State) (d : Bytes) (mid : List Event),
        minifyStep env r.1 s1 = (Outcome.ok d, s2) →
        Extends env s1 s2 mid → s2.templates = s1.templates → calls mid = [] →
        ∃ new, Extends env s (andThen (minifyStep env r.1) (fun d1 => writeStep env path d1) s1).2 new ∧
          (andThen (minifyStep env r.1) (fun d1 => writeStep env path d1) s1).2.templates = s.templates ∧
          calls new <+: [Call.execute t.path data, Call.writeFile path] ∧
          ((andThen (minifyStep env r.1) (fun d1 => writeStep env path d1) s1).1 = Outcome.ok () →
            calls new = [Call.execute t.path data, Call.writeFile path]) ∧
          (env.NoFailure →
            (andThen (minifyStep env r.1) (fun d1 => writeStep env path d1) s1).1 = Outcome.ok ()) := by
      intro s2 d mid hm hmid htm hc
      rw [andThen_ok _ _ _ _ _ hm]
      obtain ⟨new, hn1, hn2, hn3, hn4⟩ := hwrite s2 d mid hmid htm hc
      refine ⟨[Event.execute t data r.1 r.2] ++ new, extends_trans env _ _ _ _ _ hx1 hn1,
        hn2.trans hts0, ?_, ?_, hn4⟩
      · rw [calls_append, hn3]; simp [calls, Event.call]
      · intro _; rw [calls_append, hn3]; simp [calls, Event.call]
    cases hmin : env.doMinifiy with
    | false =>
      exact hfin s1 r.1 [] (minifyStep_off env _ _ hmin) (extends_refl env s1) rfl rfl
    | true =>
      cases hres2 : env.minify s1.trace.length r.1 with
      | some d2 =>
        refine hfin _ d2 [Event.minify r.1 (some d2)] (minifyStep_some env _ _ _ hmin hres2)
          ?_ rfl (by simp [calls, Event.call])
        refine ⟨rfl, ?_, ?_, fun h => wf_of_templates_eq env s1 _ rfl h⟩
        · simp [Event.rawLen]
        · simp [Event.minLen]
      | none =>
        have hm := minifyStep_none env r.1 s1 hmin hres2
        cases hp : env.panicOnErr with
        | false =>
          rw [hp] at hm
          simp only [Bool.false_eq_true, if_false] at hm
          exact hfin _ r.1 [Event.minify r.1 none] hm
            (extends_log env s1 _ rfl rfl) rfl (by simp [calls, Event.call])
        | true =>
          rw [hp] at hm
          simp only [if_true] at hm
          rw [andThen_fatal _ _ _ _ _ hm]
          refine ⟨[Event.execute t data r.1 r.2] ++ [Event.minify r.1 none],
            extends_trans env _ _ _ _ _ hx1 (extends_log env s1 _ rfl rfl), hts0, ?_, ?_, ?_⟩
          · simp [calls, Event.call]
          · intro h; simp at h
          · intro hnf
            have := hnf.2.2.1 s1.trace.length r.1
            rw [hres2] at this
            simp at this

theorem wf_set (env : Env) (s s1 : State) (ref : Nat) (name : String) (id : Nat)
    (hwf : s.WF env) (hn : templateNames.get? ref = some name)
    (h1 : s1.templates = s.templates.set ref (some { id := id, path := tmplPath env name })) :
    s1.WF env := by
  obtain ⟨hlen, hpath⟩ := hwf
  refine ⟨by rw [h1, List.length_set, hlen], ?_⟩
  intro i t hi
  rw [h1] at hi
  by_cases hir : ref = i
  · subst hir
    refine ⟨name, hn, ?_⟩
    by_cases hlt : ref < s.templates.length
    · simp [List.getD_eq_getElem?_getD, List.getElem?_set, hlt] at hi
      rw [← hi]
    · simp [List.getD_eq_getElem?_getD, List.getElem?_set, hlt] at hi
  · apply hpath i t
    simpa [List.getD_eq_getElem?_getD, List.getElem?_set, hir] using hi

theorem render_emits (env : Env) (hl : env.Loadable) (name : String)
    (hname : name ∈ templateNames) (data : Data) (path : String) :
    Emits env (renderCalls env name data path)
      (execTemplateToFileSilentMaybeMust env name data path) := by
  intro s hwf
  obtain ⟨ref, href, hlt, hget⟩ := findRef_known name hname
  cases hc : s.templates.getD ref none with
  | some t =>
    have hload := load_hit env name ref s t href hc
    rw [render_of_load_some env name data path s s t hload]
    obtain ⟨nm, hnm, hp⟩ := hwf.2 ref t hc
    rw [hget] at hnm
    cases hnm
    obtain ⟨new, h1, h2, h3, h4, h5⟩ := renderLoaded_emits env t data path s
    rw [hp] at h3 h4
    exact ⟨new, h1, h3, h4, h5⟩
  | none =>
    obtain ⟨s1, hload, htm, htr, hb, hbm⟩ := load_miss_ok_ex env name ref s href hc (hl _ _)
    rw [render_of_load_some env name data path s _ _ hload]
    have hx : Extends env s s1 [Event.parseFiles (tmplPath env name) true] := by
      refine ⟨htr, ?_, ?_, fun h => wf_set env s _ ref name s.nextTemplate h hget htm⟩
      · simp [Event.rawLen, hb]
      · simp [Event.minLen, hbm]
    obtain ⟨new, h1, h2, h3, h4, h5⟩ :=
      renderLoaded_emits env { id := s.nextTemplate, path := tmplPath env name } data path s1
    refine ⟨[Event.parseFiles (tmplPath env name) true] ++ new,
      extends_trans env _ _ _ _ _ hx h1, ?_, ?_, h5⟩
    · rw [calls_append]; simpa [calls, Event.call, renderCalls] using h3
    · intro hok; rw [calls_append]; simpa [calls, Event.call, renderCalls] using h4 hok

theorem emits_andThen (env : Env) (e1 e2 : List Call) (m : M Unit) (f : Unit → M Unit)
    (h1 : Emits env e1 m) (h2 : Emits env e2 (f ())) :
    Emits env (e1 ++ e2) (andThen m f) := by
  intro s hwf
  obtain ⟨n1, hx1, hp1, he1, hn1⟩ := h1 s hwf
  cases hm : m s with
  | mk o s1 =>
    rw [hm] at hx1 he1 hn1
    cases o with
    | fatal e =>
      rw [andThen_fatal _ _ _ _ _ hm]
      refine ⟨n1, hx1, hp1.trans (List.prefix_append _ _), ?_, ?_⟩
      · intro h; simp at h
      · intro hnf; exact absurd (hn1 hnf) (by simp)
    | ok a =>
      rw [andThen_ok _ _ _ _ _ hm]
      have he1 := he1 rfl
      obtain ⟨n2, hx2, hp2, he2, hn2⟩ := h2 s1 (hx1.2.2.2 hwf)
      refine ⟨n1 ++ n2, extends_trans env _ _ _ _ _ hx1 hx2, ?_, ?_, hn2⟩
      · rw [calls_append, he1]
        exact (List.prefix_append_right_inj _).2 hp2
      · intro hok
        rw [calls_append, he1, he2 hok]

theorem emits_nil (env : Env) : Emits env [] (fun s => (Outcome.ok (), s)) := by
  intro s _
  exact ⟨[], extends_refl env s, by simp [calls], fun _ => by simp [calls], fun _ => rfl⟩

theorem addSitemapURL_emits (env : Env) (url : String) :
    Emits env [Call.addSitemapURL url] (addSitemapURL url) := by
  intro s _
  refine ⟨[Event.addSitemapURL url], extends_log env s _ rfl rfl, ?_, ?_, fun _ => rfl⟩
  · simp [calls, Event.call]
  · intro _; simp [calls, Event.call]

theorem copyFile_emits (env : Env) (dst src : String) :
    Emits env [Call.copyFile dst src] (copyFileMaybeMust env dst src) := by
  intro s _
  refine ⟨[Event.copyFile dst src (env.copyFile s.trace.length dst src)], ?_, ?_, ?_, ?_⟩
  · have := extends_log env s (Event.copyFile dst src (env.copyFile s.trace.length dst src)) rfl rfl
    simp only [copyFileMaybeMust, maybePanicIfErr]
    split_ifs <;> exact this
  · simp [calls, Event.call]
  · intro _; simp [calls, Event.call]
  · intro hnf
    simp [copyFileMaybeMust, maybePanicIfErr, hnf.2.2.2.2.2.1]

theorem newEvents_of_extends (env : Env) (s s1 : State) (new : List Event)
    (h : Extends env s s1 new) : newEvents s s1 = new := by
  simp [newEvents, h.1]

theorem tocSearch_emits (env : Env) (book : Book) :
    Emits env [] (genBookTOCSearchMust env book) := by
  intro s _
  refine ⟨[Event.genBookTOCSearch book.Title (env.genBookTOCSearch s.trace.length book)],
    ?_, ?_, ?_, ?_⟩
  · have := extends_log env s
      (Event.genBookTOCSearch book.Title (env.genBookTOCSearch s.trace.length book)) rfl rfl
    simp only [genBookTOCSearchMust]
    split_ifs <;> exact this
  · simp [calls, Event.call]
  · intro _; simp [calls, Event.call]
  · intro hnf
    simp [genBookTOCSearchMust, hnf.2.2.2.2.2.2]

theorem mkdirStep_ok (env : Env) (book : Book) (s : State)
    (h : env.mkdirAll s.trace.length book.destDir = true) :
    mkdirStep env book s = (Outcome.ok true, s.log (Event.mkdirAll book.destDir true)) := by
  simp [mkdirStep, andThen, maybePanicIfErr, h]

theorem genBookWith_emits (env : Env) (hl : env.Loadable) (book : Book)
    (hmk : ∀ n, env.mkdirAll n book.destDir = true) (fanOut : M Unit) (e : List Call)
    (hf : Emits env e fanOut) :
    Emits env (renderCalls env "book_index.tmpl.html" (Data.book book)
        (env.filepathJoin book.destDir "index.html")
      ++ [Call.addSitemapURL book.canonnicalURL] ++ e) (genBookWith env book fanOut) := by
  have hrest : Emits env (renderCalls env "book_index.tmpl.html" (Data.book book)
        (env.filepathJoin book.destDir "index.html")
      ++ [Call.addSitemapURL book.canonnicalURL] ++ e)
      (andThen (execTemplateToFileSilentMaybeMust env "book_index.tmpl.html"
        (Data.book book) (env.filepathJoin book.destDir "index.html")) (fun _ =>
      andThen (addSitemapURL book.canonnicalURL) (fun _ => fanOut))) := by
    rw [List.append_assoc]
    refine emits_andThen env _ _ _ _
      (render_emits env hl "book_index.tmpl.html" (by simp [templateNames]) _ _) ?_
    exact emits_andThen env _ _ _ _ (addSitemapURL_emits env _) hf
  have hmid : Emits env (renderCalls env "book_index.tmpl.html" (Data.book book)
        (env.filepathJoin book.destDir "index.html")
      ++ [Call.addSitemapURL book.canonnicalURL] ++ e)
      (andThen (mkdirStep env book) (fun ok =>
        if !ok then fun s => (Outcome.ok (), s)
        else
          andThen (execTemplateToFileSilentMaybeMust env "book_index.tmpl.html"
            (Data.book book) (env.filepathJoin book.destDir "index.html")) (fun _ =>
          andThen (addSitemapURL book.canonnicalURL) (fun _ => fanOut)))) := by
    intro s hwf
    rw [andThen_ok _ _ _ _ _ (mkdirStep_ok env book s (hmk _))]
    simp only [Bool.not_true, Bool.false_eq_true, if_false]
    have hx := extends_log env s (Event.mkdirAll book.destDir true) rfl rfl
    obtain ⟨new, h1, h2, h3, h4⟩ := hrest _ (hx.2.2.2 hwf)
    refine ⟨[Event.mkdirAll book.destDir true] ++ new, extends_trans env _ _ _ _ _ hx h1,
      ?_, ?_, h4⟩
    · rw [calls_append]; simpa [calls, Event.call] using h2
    · intro hok; rw [calls_append]; simpa [calls, Event.call] using h3 hok
  have := emits_andThen env [] _ (genBookTOCSearchMust env book)
    (fun _ => andThen (mkdirStep env book) (fun ok =>
        if !ok then fun s => (Outcome.ok (), s)
        else
          andThen (execTemplateToFileSilentMaybeMust env "book_index.tmpl.html"
            (Data.book book) (env.filepathJoin book.destDir "index.html")) (fun _ =>
          andThen (addSitemapURL book.canonnicalURL) (fun _ => fanOut))))
    (tocSearch_emits env book) hmid
  simpa [genBookWith] using this

theorem andThen_assoc {α β γ : Type} (m : M α) (f : α → M β) (g : β → M γ) :
    andThen (andThen m f) g = andThen m (fun a => andThen (f a) g) := by
  funext s
  simp only [andThen]
  cases m s with
  | mk o s1 => cases o <;> rfl

theorem andThen_ret (m : M Unit) :
    andThen m (fun _ s => (Outcome.ok (), s)) = m := by
  funext s
  simp only [andThen]
  cases m s with
  | mk o s1 => cases o <;> rfl

theorem ret_andThen (m : M Unit) :
    andThen (fun s => (Outcome.ok (), s)) (fun _ => m) = m := by
  funext s
  rfl

theorem forEach_append {α : Type} (xs ys : List α) (f : α → M Unit) :
    forEach (xs ++ ys) f = andThen (forEach xs f) (fun _ => forEach ys f) := by
  induction xs with
  | nil => simp only [List.nil_append, forEach]; exact (ret_andThen _).symm
  | cons x rest ih =>
    show andThen (f x) (fun _ => forEach (rest ++ ys) f)
      = andThen (andThen (f x) (fun _ => forEach rest f)) (fun _ => forEach ys f)
    rw [ih, andThen_assoc]

theorem forEach_map {α β : Type} (xs : List α) (g : α → β) (f : β → M Unit) :
    forEach (xs.map g) f = forEach xs (fun x => f (g x)) := by
  induction xs with
  | nil => rfl
  | cons x rest ih => simp only [List.map_cons, forEach, ih]

theorem seqAll_flatten (L : List (List (M Unit))) :
    seqAll L.flatten = forEach L seqAll := by
  induction L with
  | nil => rfl
  | cons x rest ih =>
    simp only [List.flatten_cons, forEach]
    unfold seqAll at ih ⊢
    rw [forEach_append, ih]

theorem genArticle_eq_stmts (env : Env) (article : Article) (n : Nat) :
    genArticle env article n = seqAll (genArticleStmts env article n) := by
  simp only [genArticle, seqAll, genArticleStmts, forEach, andThen_ret]

theorem genChapter_eq_stmts (env : Env) (chapter : Chapter) (n : Nat) :
    genChapter env chapter n = seqAll (genChapterStmts env chapter n) := by
  have h1 : forEach chapter.Articles (fun article => genArticle env article n)
      = seqAll (chapter.Articles.map (fun article => genArticleStmts env article n)).flatten := by
    have e : (fun article => genArticle env article n)
        = (fun article => seqAll (genArticleStmts env article n)) := by
      funext article
      exact genArticle_eq_stmts env article n
    rw [seqAll_flatten, forEach_map, e]
  have h2 : forEach chapter.images (fun imagePath =>
        copyFileMaybeMust env (chapter.destImagePath (env.filepathBase imagePath)) imagePath)
      = seqAll (chapter.images.map (fun imagePath =>
        copyFileMaybeMust env (chapter.destImagePath (env.filepathBase imagePath))
          imagePath)) := by
    unfold seqAll
    rw [forEach_map]
  unfold genChapter genChapterStmts
  rw [h1, h2]
  unfold seqAll
  rw [forEach_append, forEach_append, forEach_append]
  simp only [forEach, andThen_ret, andThen_assoc]

theorem chapterLoop_eq_threads (env : Env) (chapters : List Chapter) (i : Nat) :
    chapterLoop env chapters i = runThreads (chapterThreads env chapters i) [] := by
  induction chapters generalizing i with
  | nil => rfl
  | cons c rest ih =>
    have := ih (i + 1)
    simp only [runThreads] at this
    simp only [chapterLoop, chapterThreads, runThreads, forEach, genChapter_eq_stmts, this]

/-- The run of `genBook` modelled by `genBook` is the one under the empty
schedule, in which the goroutines run one after the other in launch order. -/
theorem genBook_eq_sched (env : Env) (book : Book) :
    genBook env book = genBookSched env book [] := by
  unfold genBook genBookSched
  rw [chapterLoop_eq_threads]

theorem emitsPerm_of_emits (env : Env) (e : List Call) (m : M Unit) (h : Emits env e m) :
    EmitsPerm env e m := by
  intro s hwf
  obtain ⟨new, hx, -, heq, hok⟩ := h s hwf
  exact ⟨new, hx, fun h => by rw [heq h], hok⟩

theorem emitsPerm_andThen (env : Env) (e1 e2 : List Call) (m : M Unit) (f : Unit → M Unit)
    (h1 : EmitsPerm env e1 m) (h2 : EmitsPerm env e2 (f ())) :
    EmitsPerm env (e1 ++ e2) (andThen m f) := by
  intro s hwf
  obtain ⟨n1, hx1, he1, hn1⟩ := h1 s hwf
  cases hm : m s with
  | mk o s1 =>
    rw [hm] at hx1 he1 hn1
    cases o with
    | fatal e =>
      rw [andThen_fatal _ _ _ _ _ hm]
      refine ⟨n1, hx1, ?_, ?_⟩
      · intro h; simp at h
      · intro hnf; exact absurd (hn1 hnf) (by simp)
    | ok a =>
      rw [andThen_ok _ _ _ _ _ hm]
      obtain ⟨n2, hx2, he2, hn2⟩ := h2 s1 (hx1.2.2.2 hwf)
      refine ⟨n1 ++ n2, extends_trans env _ _ _ _ _ hx1 hx2, ?_, hn2⟩
      intro hok
      rw [calls_append]
      exact List.Perm.append (he1 rfl) (he2 hok)

theorem emitsPerm_congr (env : Env) (e1 e2 : List Call) (m : M Unit) (hp : e1.Perm e2)
    (h : EmitsPerm env e1 m) : EmitsPerm env e2 m := by
  intro s hwf
  obtain ⟨new, hx, he, hn⟩ := h s hwf
  exact ⟨new, hx, fun hok => (he hok).trans hp, hn⟩

theorem emits_seqAll (env : Env) (es : List (List Call)) (stmts : List (M Unit))
    (h : List.Forall₂ (fun e stmt => Emits env e stmt) es stmts) :
    Emits env es.flatten (seqAll stmts) := by
  induction h with
  | nil => exact emits_nil env
  | cons hhead _ ih =>
    simp only [List.flatten_cons, seqAll, forEach]
    exact emits_andThen env _ _ _ _ hhead ih

theorem emits_threads (env : Env) (exps : List (List (List Call)))
    (threads : List (List (M Unit)))
    (h : List.Forall₂ (List.Forall₂ (fun e stmt => Emits env e stmt)) exps threads) :
    Emits env (exps.map List.flatten).flatten (forEach threads seqAll) := by
  induction h with
  | nil => exact emits_nil env
  | cons hhead _ ih =>
    simp only [List.map_cons, List.flatten_cons, forEach]
    exact emits_andThen env _ _ _ _ (emits_seqAll env _ _ hhead) ih

theorem forall₂_get? {α β : Type} (R : α → β → Prop) (xs : List α) (ys : List β)
    (h : List.Forall₂ R xs ys) (i : Nat) (y : β) (hy : ys.get? i = some y) :
    ∃ x, xs.get? i = some x ∧ R x y := by
  induction h generalizing i with
  | nil => simp at hy
  | cons hhead _ ih =>
    cases i with
    | zero =>
      simp only [List.get?_cons_zero, Option.some.injEq] at hy
      subst hy
      exact ⟨_, rfl, hhead⟩
    | succ k =>
      simp only [List.get?_cons_succ] at hy ⊢
      exact ih k hy

theorem forall₂_set {α β : Type} (R : α → β → Prop) (xs : List α) (ys : List β)
    (h : List.Forall₂ R xs ys) (i : Nat) (x : α) (y : β) (hxy : R x y) :
    List.Forall₂ R (xs.set i x) (ys.set i y) := by
  induction h generalizing i with
  | nil => simp
  | cons hhead htail ih =>
    cases i with
    | zero => exact List.Forall₂.cons hxy htail
    | succ k => exact List.Forall₂.cons hhead (ih k)

theorem perm_take_out (exps : List (List (List Call))) (i : Nat) (e : List Call)
    (emore : List (List Call)) (h : exps.get? i = some (e :: emore)) :
    (e ++ ((exps.set i emore).map List.flatten).flatten).Perm
      (exps.map List.flatten).flatten := by
  induction exps generalizing i with
  | nil => simp at h
  | cons x rest ih =>
    cases i with
    | zero =>
      simp only [List.get?_cons_zero, Option.some.injEq] at h
      subst h
      simp
    | succ k =>
      simp only [List.get?_cons_succ] at h
      have := ih k h
      simp only [List.set_cons_succ, List.map_cons, List.flatten_cons]
      have h1 : (e ++ (x.flatten ++ ((rest.set k emore).map List.flatten).flatten)).Perm
          (x.flatten ++ (e ++ ((rest.set k emore).map List.flatten).flatten)) := by
        rw [← List.append_assoc, ← List.append_assoc]
        exact List.Perm.append_right _ List.perm_append_comm
      exact h1.trans (List.Perm.append_left _ this)

/-- Whatever the schedule, a run of the goroutines that returns has asked for
exactly the effects of all their statements. -/
theorem runThreads_emitsPerm (env : Env) (sched : List Nat)
    (exps : List (List (List Call))) (threads : List (List (M Unit)))
    (h : List.Forall₂ (List.Forall₂ (fun e stmt => Emits env e stmt)) exps threads) :
    EmitsPerm env (exps.map List.flatten).flatten (runThreads threads sched) := by
  induction sched generalizing exps threads with
  | nil => exact emitsPerm_of_emits env _ _ (emits_threads env exps threads h)
  | cons i rest ih =>
    simp only [runThreads]
    cases hget : threads.get? i with
    | none => exact ih exps threads h
    | some t =>
      cases t with
      | nil => exact ih exps threads h
      | cons stmt more =>
        obtain ⟨es, hes, hR⟩ := forall₂_get? _ _ _ h i _ hget
        cases hR with
        | cons hhead htail =>
          rename_i e emore
          have hset := forall₂_set _ _ _ h i emore more htail
          have := emitsPerm_andThen env e _ stmt
            (fun _ => runThreads (threads.set i more) rest)
            (emitsPerm_of_emits env _ _ hhead) (ih _ _ hset)
          exact emitsPerm_congr env _ _ _ (perm_take_out exps i e emore hes) this

/-- When the directory of the book can be created, `genBook` is its lines
225-247 followed by the chapter fan-out. -/
theorem genBookWith_split (env : Env) (book : Book)
    (hmk : ∀ n, env.mkdirAll n book.destDir = true) (fanOut : M Unit) :
    genBookWith env book fanOut
      = andThen (genBookWith env book (fun s => (Outcome.ok (), s))) (fun _ => fanOut) := by
  funext s
  unfold genBookWith
  rw [andThen_assoc]
  cases ht : genBookTOCSearchMust env book s with
  | mk o s1 =>
    cases o with
    | fatal e => rw [andThen_fatal _ _ _ _ _ ht, andThen_fatal _ _ _ _ _ ht]
    | ok a =>
      rw [andThen_ok _ _ _ _ _ ht, andThen_ok _ _ _ _ _ ht, andThen_assoc,
        andThen_ok _ _ _ _ _ (mkdirStep_ok env book s1 (hmk _)),
        andThen_ok _ _ _ _ _ (mkdirStep_ok env book s1 (hmk _))]
      simp only [Bool.not_true, Bool.false_eq_true, if_false, andThen_assoc, ret_andThen]

theorem genBookWith_emitsPerm (env : Env) (hl : env.Loadable) (book : Book)
    (hmk : ∀ n, env.mkdirAll n book.destDir = true) (fanOut : M Unit) (e : List Call)
    (hf : EmitsPerm env e fanOut) :
    EmitsPerm env (renderCalls env "book_index.tmpl.html" (Data.book book)
        (env.filepathJoin book.destDir "index.html")
      ++ [Call.addSitemapURL book.canonnicalURL] ++ e) (genBookWith env book fanOut) := by
  rw [genBookWith_split env book hmk]
  have hpre := genBookWith_emits env hl book hmk _ [] (emits_nil env)
  rw [List.append_nil] at hpre
  exact emitsPerm_andThen env _ _ _ _ (emitsPerm_of_emits env _ _ hpre) hf

theorem forall₂_append {α β : Type} (R : α → β → Prop) (a c : List α) (b d : List β)
    (h1 : List.Forall₂ R a b) (h2 : List.Forall₂ R c d) :
    List.Forall₂ R (a ++ c) (b ++ d) := by
  induction h1 with
  | nil => exact h2
  | cons hhead _ ih => exact List.Forall₂.cons hhead ih

theorem genChapterStmts_emit (env : Env) (hl : env.Loadable) (chapter : Chapter) (n : Nat) :
    List.Forall₂ (fun e stmt => Emits env e stmt) (chapterStmtCalls env chapter n)
      (genChapterStmts env chapter n) := by
  unfold chapterStmtCalls genChapterStmts
  refine forall₂_append _ _ _ _ _ (forall₂_append _ _ _ _ _ (forall₂_append _ _ _ _ _ ?_ ?_) ?_) ?_
  · exact List.Forall₂.cons (addSitemapURL_emits env _) List.Forall₂.nil
  · induction chapter.Articles with
    | nil => exact List.Forall₂.nil
    | cons a rest ih =>
      simp only [List.map_cons, List.flatten_cons]
      refine forall₂_append _ _ _ _ _ ?_ ih
      exact List.Forall₂.cons (addSitemapURL_emits env _)
        (List.Forall₂.cons (render_emits env hl "article.tmpl.html" (by simp [templateNames])
          _ _) List.Forall₂.nil)
  · exact List.Forall₂.cons
      (render_emits env hl "chapter.tmpl.html" (by simp [templateNames]) _ _) List.Forall₂.nil
  · induction chapter.images with
    | nil => exact List.Forall₂.nil
    | cons x rest ih =>
      simp only [List.map_cons]
      exact List.Forall₂.cons (copyFile_emits env _ _) ih

theorem chapterThreads_emit (env : Env) (hl : env.Loadable) (chapters : List Chapter)
    (i : Nat) :
    List.Forall₂ (List.Forall₂ (fun e stmt => Emits env e stmt)) (threadsCalls env chapters i)
      (chapterThreads env chapters i) := by
  induction chapters generalizing i with
  | nil => exact List.Forall₂.nil
  | cons c rest ih =>
    exact List.Forall₂.cons (genChapterStmts_emit env hl c (i + 1)) (ih (i + 1))

theorem chapterStmtCalls_flatten (env : Env) (chapter : Chapter) (n : Nat) :
    (chapterStmtCalls env chapter n).flatten = chapterCalls env chapter n := by
  unfold chapterStmtCalls chapterCalls
  have h1 : ((chapter.Articles.map (fun article => articleStmtCalls env article n)).flatten).flatten
      = (chapter.Articles.map (fun article => articleCalls env article n)).flatten := by
    induction chapter.Articles with
    | nil => rfl
    | cons a rest ih =>
      simp only [List.map_cons, List.flatten_cons, List.flatten_append, ih]
      rfl
  have h2 : (chapter.images.map (fun imagePath =>
        [Call.copyFile (chapter.destImagePath (env.filepathBase imagePath)) imagePath])).flatten
      = chapter.images.map (fun imagePath =>
        Call.copyFile (chapter.destImagePath (env.filepathBase imagePath)) imagePath) := by
    induction chapter.images with
    | nil => rfl
    | cons x rest ih => simp [ih]
  simp only [List.flatten_append, h1, h2]
  simp

theorem threadsCalls_flatten (env : Env) (chapters : List Chapter) (i : Nat) :
    ((threadsCalls env chapters i).map List.flatten).flatten = chaptersCalls env chapters i := by
  induction chapters generalizing i with
  | nil => rfl
  | cons c rest ih =>
    simp only [threadsCalls, List.map_cons, List.flatten_cons, chaptersCalls,
      chapterStmtCalls_flatten, ih]

/-- Whatever the schedule of the chapter goroutines, a run of `genBook` that
returns has asked for exactly the effects of `bookCalls`, each as often as it
occurs there. -/
theorem genBookSched_emitsPerm (env : Env) (hl : env.Loadable) (book : Book)
    (hmk : ∀ n, env.mkdirAll n book.destDir = true) (sched : List Nat) :
    EmitsPerm env (bookCalls env book) (genBookSched env book sched) := by
  have h := runThreads_emitsPerm env sched _ _ (chapterThreads_emit env hl book.Chapters 0)
  rw [threadsCalls_flatten] at h
  exact genBookWith_emitsPerm env hl book hmk _ _ h

/-! ## Counting effects -/

theorem countP_sitemap_calls (evs : List Event) :
    evs.countP Event.isSitemap = (calls evs).countP Call.isSitemap := by
  induction evs with
  | nil => rfl
  | cons e rest ih =>
    cases e <;> simp [calls, Event.call, Event.isSitemap, Call.isSitemap, List.countP_cons] at ih ⊢ <;>
      exact ih

theorem writePath_calls (evs : List Event) :
    evs.filterMap Event.writePath = (calls evs).filterMap Call.writePath := by
  induction evs with
  | nil => rfl
  | cons e rest ih =>
    cases e <;> simp [calls, Event.call, Event.writePath, Call.writePath] at ih ⊢ <;>
      exact ih

theorem articles_countP (env : Env) (p : Call → Bool) (k : Nat) (articles : List Article)
    (n : Nat) (h : ∀ a, (articleCalls env a n).countP p = k) :
    ((articles.map (fun article => articleCalls env article n)).flatten).countP p
      = k * articles.length := by
  induction articles with
  | nil => simp
  | cons a rest ih =>
    simp only [List.map_cons, List.flatten_cons, List.countP_append, ih, h, List.length_cons]
    rw [Nat.mul_succ, Nat.add_comm]

theorem images_countP (env : Env) (p : Call → Bool) (chapter : Chapter)
    (h : ∀ dst src, p (Call.copyFile dst src) = false) :
    (chapter.images.map (fun imagePath =>
      Call.copyFile (chapter.destImagePath (env.filepathBase imagePath)) imagePath)).countP p = 0 := by
  induction chapter.images with
  | nil => rfl
  | cons x rest ih => simp [List.countP_cons, ih, h]

theorem chapterCalls_sitemap (env : Env) (chapter : Chapter) (n : Nat) :
    (chapterCalls env chapter n).countP Call.isSitemap = 1 + chapter.Articles.length := by
  unfold chapterCalls
  rw [List.countP_append, List.countP_append, List.countP_append,
    articles_countP env Call.isSitemap 1 _ n (fun a => by
      simp [articleCalls, renderCalls, List.countP_cons, Call.isSitemap]),
    images_countP env Call.isSitemap chapter (fun _ _ => rfl)]
  simp [renderCalls, List.countP_cons, Call.isSitemap]

theorem chaptersCalls_countP (env : Env) (p : Call → Bool) (g : Chapter → Nat)
    (h : ∀ c n, (chapterCalls env c n).countP p = g c) (chapters : List Chapter) (i : Nat) :
    (chaptersCalls env chapters i).countP p = (chapters.map g).sum := by
  induction chapters generalizing i with
  | nil => rfl
  | cons c rest ih =>
    simp only [chaptersCalls, List.countP_append, h, ih, List.map_cons, List.sum_cons]

theorem sum_map_add_one (chapters : List Chapter) :
    (chapters.map (fun c => 1 + c.Articles.length)).sum
      = chapters.length + (chapters.map (fun c => c.Articles.length)).sum := by
  induction chapters with
  | nil => rfl
  | cons c rest ih => simp only [List.map_cons, List.sum_cons, List.length_cons, ih]; omega

theorem bookCalls_sitemap (env : Env) (book : Book) :
    (bookCalls env book).countP Call.isSitemap
      = 1 + book.Chapters.length + book.ArticlesCount := by
  unfold bookCalls
  rw [List.countP_append, List.countP_append,
    chaptersCalls_countP env Call.isSitemap (fun c => 1 + c.Articles.length)
      (chapterCalls_sitemap env), sum_map_add_one]
  simp only [renderCalls, List.countP_cons, List.countP_nil, Call.isSitemap, Book.ArticlesCount]
  simp
  omega

/-- A lookup adds at most one external call, the read of the template file,
and leaves the byte counters alone. -/
theorem load_run (env : Env) (name : String) (s : State) :
    ∃ pre, Extends env s (loadTemplateMaybeMust env name s).2 pre ∧
      (∀ e ∈ pre, e.isParse = true) ∧
      (loadTemplateMaybeMust env name s).2.totalHTMLBytes = s.totalHTMLBytes ∧
      (loadTemplateMaybeMust env name s).2.totalHTMLBytesMinified = s.totalHTMLBytesMinified := by
  by_cases hname : name ∈ templateNames
  · obtain ⟨ref, href, hlt, hget⟩ := findRef_known name hname
    cases hc : s.templates.getD ref none with
    | some t =>
      rw [load_hit env name ref s t href hc]
      exact ⟨[], extends_refl env s, by simp, rfl, rfl⟩
    | none =>
      cases hp : env.parseFiles s.trace.length (tmplPath env name) with
      | true =>
        obtain ⟨s1, hload, htm, htr, hb, hbm⟩ := load_miss_ok_ex env name ref s href hc hp
        rw [hload]
        refine ⟨[Event.parseFiles (tmplPath env name) true], ⟨htr, ?_, ?_, fun h =>
          wf_set env s _ ref name s.nextTemplate h hget htm⟩, by simp [Event.isParse], hb, hbm⟩
        · simp [Event.rawLen, hb]
        · simp [Event.minLen, hbm]
      | false =>
        cases hm : env.panicOnErr with
        | false =>
          rw [load_miss_soft env name ref s href hc hp hm]
          exact ⟨[Event.parseFiles (tmplPath env name) false], extends_log env s _ rfl rfl,
            by simp [Event.isParse], rfl, rfl⟩
        | true =>
          rw [load_miss_panic env name ref s href hc hp hm]
          exact ⟨[Event.parseFiles (tmplPath env name) false], extends_log env s _ rfl rfl,
            by simp [Event.isParse], rfl, rfl⟩
  · rw [load_unknown env name s hname]
    exact ⟨[], extends_refl env s, by simp, rfl, rfl⟩

theorem parse_no_write (pre : List Event) (h : ∀ e ∈ pre, e.isParse = true) :
    pre.filterMap Event.writePath = [] ∧ pre.filterMap Event.written = [] ∧ calls pre = [] := by
  induction pre with
  | nil => exact ⟨rfl, rfl, rfl⟩
  | cons e rest ih =>
    have he := h e (List.mem_cons_self _ _)
    obtain ⟨i1, i2, i3⟩ := ih (fun x hx => h x (List.mem_cons_of_mem _ hx))
    cases e <;> simp [Event.isParse] at he
    simp only [calls] at i3
    simp [Event.writePath, Event.written, calls, Event.call, i1, i2, i3]

theorem writePath_of_prefix (l : List Call) (t : String) (data : Data) (path : String)
    (h : l <+: [Call.execute t data, Call.writeFile path]) :
    l.filterMap Call.writePath = [] ∨ l.filterMap Call.writePath = [path] := by
  obtain ⟨r, hr⟩ := h
  match l, hr with
  | [], _ => left; rfl
  | [a], hr =>
    simp at hr
    left
    rw [hr.1]
    rfl
  | [a, b], hr =>
    simp at hr
    right
    rw [hr.1, hr.2.1]
    rfl
  | a :: b :: c :: l1, hr => simp at hr

/-- Every render call, from every state: the record grows, the counters move by
what the record says, and at most one file is written, at `path`. -/
theorem render_run (env : Env) (name : String) (data : Data) (path : String) (s : State) :
    ∃ new, Extends env s (execTemplateToFileSilentMaybeMust env name data path s).2 new ∧
      (new.filterMap Event.writePath = [] ∨ new.filterMap Event.writePath = [path]) := by
  obtain ⟨pre, hx, hparse, -, -⟩ := load_run env name s
  obtain ⟨hw, -, -⟩ := parse_no_write pre hparse
  cases hload : loadTemplateMaybeMust env name s with
  | mk o s1 =>
    rw [hload] at hx
    cases o with
    | fatal e =>
      rw [render_of_load_fatal env name data path s s1 e hload]
      exact ⟨pre, hx, Or.inl hw⟩
    | ok tmpl =>
      cases tmpl with
      | none =>
        rw [render_of_load_none env name data path s s1 hload]
        exact ⟨pre, hx, Or.inl hw⟩
      | some t =>
        rw [render_of_load_some env name data path s s1 t hload]
        obtain ⟨new, h1, -, h3, -, -⟩ := renderLoaded_emits env t data path s1
        refine ⟨pre ++ new, extends_trans env _ _ _ _ _ hx h1, ?_⟩
        rw [List.filterMap_append, hw, List.nil_append, writePath_calls]
        exact writePath_of_prefix _ _ _ _ h3

theorem fatal_andThen {α β : Type} (m : M α) (f : α → M β) (s : State) (e : Fatal)
    (h : (andThen m f s).1 = Outcome.fatal e) :
    (m s).1 = Outcome.fatal e ∨ ∃ a, (f a (m s).2).1 = Outcome.fatal e := by
  cases hm : m s with
  | mk o s1 =>
    cases o with
    | fatal e1 =>
      rw [andThen_fatal _ _ _ _ _ hm] at h
      simp only [Outcome.fatal.injEq] at h
      subst h
      exact Or.inl rfl
    | ok a =>
      rw [andThen_ok _ _ _ _ _ hm] at h
      exact Or.inr ⟨a, h⟩

theorem outcome_unit (o : Outcome Unit) (h : ∀ e, o = Outcome.fatal e → e = Fatal.panic) :
    o = Outcome.ok () ∨ o = Outcome.fatal Fatal.panic := by
  cases o with
  | ok a => exact Or.inl rfl
  | fatal e => rw [h e rfl]; exact Or.inr rfl

theorem minifyStep_fatal (env : Env) (d : Bytes) (s : State) (e : Fatal)
    (h : (minifyStep env d s).1 = Outcome.fatal e) : e = Fatal.panic := by
  cases hmin : env.doMinifiy with
  | false => rw [minifyStep_off env d s hmin] at h; simp at h
  | true =>
    cases hres : env.minify s.trace.length d with
    | some d2 => rw [minifyStep_some env d d2 s hmin hres] at h; simp at h
    | none =>
      rw [minifyStep_none env d s hmin hres] at h
      cases hp : env.panicOnErr <;> rw [hp] at h <;> simp at h
      exact h.symm

theorem renderLoaded_outcome (env : Env) (t : Template) (data : Data) (path : String)
    (s : State) :
    (renderLoaded env t data path s).1 = Outcome.ok () ∨
      (renderLoaded env t data path s).1 = Outcome.fatal Fatal.panic := by
  apply outcome_unit
  intro e h
  unfold renderLoaded at h
  rcases fatal_andThen _ _ _ _ h with h1 | ⟨d, h1⟩
  · rw [executeStep_eq] at h1
    simp only at h1
    split_ifs at h1
    simp at h1
    exact h1.symm
  · rcases fatal_andThen _ _ _ _ h1 with h2 | ⟨d1, h2⟩
    · exact minifyStep_fatal env _ _ e h2
    · rw [writeStep_eq] at h2
      simp only at h2
      split_ifs at h2
      simp at h2
      exact h2.symm

theorem load_outcome (env : Env) (name : String) (hname : name ∈ templateNames) (s : State) :
    (∃ t, (loadTemplateMaybeMust env name s).1 = Outcome.ok t) ∨
      (loadTemplateMaybeMust env name s).1 = Outcome.fatal Fatal.panic := by
  obtain ⟨ref, href, hlt, hget⟩ := findRef_known name hname
  cases hc : s.templates.getD ref none with
  | some t => rw [load_hit env name ref s t href hc]; exact Or.inl ⟨_, rfl⟩
  | none =>
    cases hp : env.parseFiles s.trace.length (tmplPath env name) with
    | true => rw [load_miss_ok env name ref s href hc hp]; exact Or.inl ⟨_, rfl⟩
    | false =>
      cases hm : env.panicOnErr with
      | false => rw [load_miss_soft env name ref s href hc hp hm]; exact Or.inl ⟨_, rfl⟩
      | true => rw [load_miss_panic env name ref s href hc hp hm]; exact Or.inr rfl

theorem render_outcome (env : Env) (name : String) (hname : name ∈ templateNames)
    (data : Data) (path : String) (s : State) :
    (execTemplateToFileSilentMaybeMust env name data path s).1 = Outcome.ok () ∨
      (execTemplateToFileSilentMaybeMust env name data path s).1
        = Outcome.fatal Fatal.panic := by
  cases hload : loadTemplateMaybeMust env name s with
  | mk o s1 =>
    cases o with
    | fatal e =>
      rw [render_of_load_fatal env name data path s s1 e hload]
      rcases load_outcome env name hname s with ⟨t, ht⟩ | h
      · rw [hload] at ht; simp at ht
      · rw [hload] at h
        simp only [Outcome.fatal.injEq] at h
        subst h
        exact Or.inr rfl
    | ok tmpl =>
      cases tmpl with
      | none => rw [render_of_load_none env name data path s s1 hload]; exact Or.inl rfl
      | some t =>
        rw [render_of_load_some env name data path s s1 t hload]
        exact renderLoaded_outcome env t data path s1

/-! ## The order of effects when templates may be missing -/

/-- C7. For a name that is not in `templateNames` (seven entries), a lookup and
a render call of either variant end in the unknown-template fatal outcome, in
the very state they started from: nothing is written or read, the byte
counters and the cache are unchanged, and no success is reported.  For a name
that is in `templateNames`, none of the three ever ends in that outcome. -/
theorem unknown_template_is_fatal (env : Env) (name known : String) (data : Data)
    (path : String) (s : State) (hname : name ∉ templateNames)
    (hknown : known ∈ templateNames) :
    templateNames.length = 7 ∧
    loadTemplateMaybeMust env name s = (Outcome.fatal (Fatal.unknownTemplate name), s) ∧
    execTemplateToFileSilentMaybeMust env name data path s
      = (Outcome.fatal (Fatal.unknownTemplate name), s) ∧
    execTemplateToFileMaybeMust env name data path s
      = (Outcome.fatal (Fatal.unknownTemplate name), s) ∧
    (∀ n, (loadTemplateMaybeMust env known s).1 ≠ Outcome.fatal (Fatal.unknownTemplate n)) ∧
    (∀ n, (execTemplateToFileSilentMaybeMust env known data path s).1
      ≠ Outcome.fatal (Fatal.unknownTemplate n)) ∧
    (∀ n, (execTemplateToFileMaybeMust env known data path s).1
      ≠ Outcome.fatal (Fatal.unknownTemplate n)) := by
  have hl := load_unknown env name s hname
  have hr := render_of_load_fatal env name data path s s _ hl
  have hk : ∀ n, (execTemplateToFileSilentMaybeMust env known data path s).1
      ≠ Outcome.fatal (Fatal.unknownTemplate n) := by
    intro n h
    rcases render_outcome env known hknown data path s with h1 | h1 <;>
      rw [h1] at h <;> simp at h
  refine ⟨rfl, hl, hr, hr, ?_, hk, hk⟩
  intro n h
  rcases load_outcome env known hknown s with ⟨t, h1⟩ | h1 <;> rw [h1] at h <;> simp at h

theorem unknown_template_is_fatal_witness :
    "toc.tmpl.html" ∉ templateNames ∧ "chapter.tmpl.html" ∈ templateNames ∧
    execTemplateToFileSilentMaybeMust allOk "toc.tmpl.html" Data.site "www/toc.html" State.init
      = (Outcome.fatal (Fatal.unknownTemplate "toc.tmpl.html"), State.init) ∧
    (execTemplateToFileSilentMaybeMust allOk "chapter.tmpl.html" Data.site "www/c.html"
      State.init).1 = Outcome.ok () :=
  ⟨by decide, by decide,
   (unknown_template_is_fatal allOk "toc.tmpl.html" "chapter.tmpl.html" Data.site "www/toc.html"
      State.init (by decide) (by decide)).2.2.1,
   by decide!⟩

/-! ## C5: looking a template up twice -/

/-- After `unloadTemplates()` the cache is empty again, so the next lookup of a
name of `templateNames` reads and parses its file. -/
theorem load_after_unload (env : Env) (name : String) (s : State)
    (hname : name ∈ templateNames) :
    newEvents (unloadTemplates s).2 (loadTemplateMaybeMust env name (unloadTemplates s).2).2
      = [Event.parseFiles (tmplPath env name)
          (env.parseFiles s.trace.length (tmplPath env name))] := by
  obtain ⟨ref, href, hlt, -⟩ := findRef_known name hname
  have hc : (unloadTemplates s).2.templates.getD ref none = none := by
    simp only [unloadTemplates, emptyTemplates, List.getD_eq_getElem?_getD,
      List.getElem?_replicate]
    split_ifs
    rfl
  have htr : (unloadTemplates s).2.trace = s.trace := rfl
  cases hp : env.parseFiles s.trace.length (tmplPath env name) with
  | true =>
    rw [load_miss_ok env name ref _ href hc (by rw [htr]; exact hp)]
    simp [newEvents]
  | false =>
    cases hm : env.panicOnErr with
    | false =>
      rw [load_miss_soft env name ref _ href hc (by rw [htr]; exact hp) hm]
      simp [newEvents, State.log]
    | true =>
      rw [load_miss_panic env name ref _ href hc (by rw [htr]; exact hp) hm]
      simp [newEvents, State.log]

theorem forEach_extends {α : Type} (env : Env) (xs : List α) (f : α → M Unit)
    (h : ∀ x s, ∃ new, Extends env s (f x s).2 new) (s : State) :
    ∃ new, Extends env s (forEach xs f s).2 new := by
  induction xs generalizing s with
  | nil => exact ⟨[], extends_refl env s⟩
  | cons x rest ih =>
    obtain ⟨n1, h1⟩ := h x s
    simp only [forEach]
    cases hm : f x s with
    | mk o s1 =>
      rw [hm] at h1
      cases o with
      | fatal e => rw [andThen_fatal _ _ _ _ _ hm]; exact ⟨n1, h1⟩
      | ok a =>
        rw [andThen_ok _ _ _ _ _ hm]
        obtain ⟨n2, h2⟩ := ih s1
        exact ⟨n1 ++ n2, extends_trans env _ _ _ _ _ h1 h2⟩

/-- C9 (amended). After any sequence of render calls made one after the other,
from any state (in particular from zeroed counters), `totalHTMLBytes` has grown
by the sum of the lengths of the buffers handed to the minifier calls that
succeeded, and `totalHTMLBytesMinified` by the sum of the lengths of what those
calls returned; calls with minification off or failed contribute nothing. -/
theorem counters_are_sums (env : Env) (rcalls : List (String × Data × String)) (s : State) :
    (renderAll env rcalls s).2.totalHTMLBytes
      = s.totalHTMLBytes + ((newEvents s (renderAll env rcalls s).2).map Event.rawLen).sum ∧
    (renderAll env rcalls s).2.totalHTMLBytesMinified
      = s.totalHTMLBytesMinified
        + ((newEvents s (renderAll env rcalls s).2).map Event.minLen).sum := by
  obtain ⟨new, hx⟩ := forEach_extends env rcalls
    (fun c => execTemplateToFileSilentMaybeMust env c.1 c.2.1 c.2.2)
    (fun c s => by
      obtain ⟨new, hn, -⟩ := render_run env c.1 c.2.1 c.2.2 s
      exact ⟨new, hn⟩) s
  unfold renderAll
  rw [newEvents_of_extends env _ _ _ hx]
  exact ⟨hx.2.1, hx.2.2.1⟩

/-- C9, as stated, fails: two goroutines that run lines 96-97 at the same time,
one with `len(d) = 5`, `len(d2) = 3`, the other with 7 and 4, can interleave
their loads and stores so that both finish and the counters hold 7 and 4, not
the sums 12 and 7; run one after the other they give the sums.  Two chapter
goroutines are inside `genChapter` at the same time in a reachable state of the
fan-out with a limiter of capacity 2. -/
theorem counter_update_lost :
    Race.allDone (Race.run ({ totalHTMLBytes := 0, totalHTMLBytesMinified := 0 },
      [Race.Thread.start 5 3, Race.Thread.start 7 4]) [0, 1, 0, 1, 0, 1, 0, 1]).2 = true ∧
    (Race.run ({ totalHTMLBytes := 0, totalHTMLBytesMinified := 0 },
      [Race.Thread.start 5 3, Race.Thread.start 7 4]) [0, 1, 0, 1, 0, 1, 0, 1]).1
        = { totalHTMLBytes := 7, totalHTMLBytesMinified := 4 } ∧
    (Race.run ({ totalHTMLBytes := 0, totalHTMLBytesMinified := 0 },
      [Race.Thread.start 5 3, Race.Thread.start 7 4]) [0, 0, 0, 0, 1, 1, 1, 1]).1
        = { totalHTMLBytes := 5 + 7, totalHTMLBytesMinified := 3 + 4 } ∧
    (FanOut.run 2 2 (FanOut.init 2)
      [FanOut.Action.main, FanOut.Action.main, FanOut.Action.main, FanOut.Action.main,
        FanOut.Action.main, FanOut.Action.main, FanOut.Action.worker 0,
        FanOut.Action.worker 1]).map FanOut.inFlight = some 2 := by
  decide

/-! ## C3, C4, C10: what a generation run asks for -/

theorem wf_init (env : Env) : State.init.WF env := by
  refine ⟨rfl, ?_⟩
  intro i t h
  simp only [State.init, emptyTemplates, List.getD_eq_getElem?_getD, List.getElem?_replicate] at h
  split_ifs at h <;> simp at h

theorem allOk_noFailure : allOk.NoFailure :=
  ⟨fun _ _ => rfl, fun _ _ _ => rfl, fun _ _ => rfl, fun _ _ _ => rfl, fun _ _ => rfl,
    fun _ _ _ => rfl, fun _ _ => rfl⟩

theorem genBookSched_run (env : Env) (book : Book) (sched : List Nat) (s : State)
    (hl : env.Loadable) (hmk : ∀ k, env.mkdirAll k book.destDir = true) (hwf : s.WF env) :
    (env.NoFailure → (genBookSched env book sched s).1 = Outcome.ok ()) ∧
    ((genBookSched env book sched s).1 = Outcome.ok () →
      (calls (newEvents s (genBookSched env book sched s).2)).Perm (bookCalls env book)) := by
  obtain ⟨new, hx, heq, hok⟩ := genBookSched_emitsPerm env hl book hmk sched s hwf
  rw [newEvents_of_extends env _ _ _ hx]
  exact ⟨hok, heq⟩

/-- C3 (amended). With template files that parse and a book directory that
can be created, whatever the schedule of the chapter goroutines: a run of
`genBook` that returns has called `addSitemapURL` exactly `1 + N + A` times for
a book of `N` chapters with `A` articles in total, once for the book itself
(line 247), once per chapter and once per article; and the run returns when no
collaborator fails.  For 3 chapters of 2 articles that is 10 calls. -/
theorem genBook_records_urls (env : Env) (book : Book) (sched : List Nat) (s : State)
    (hl : env.Loadable) (hmk : ∀ k, env.mkdirAll k book.destDir = true) (hwf : s.WF env) :
    (env.NoFailure → (genBookSched env book sched s).1 = Outcome.ok ()) ∧
    ((genBookSched env book sched s).1 = Outcome.ok () →
      (newEvents s (genBookSched env book sched s).2).countP Event.isSitemap
        = 1 + book.Chapters.length + book.ArticlesCount) := by
  obtain ⟨hok, hperm⟩ := genBookSched_run env book sched s hl hmk hwf
  refine ⟨hok, fun h => ?_⟩
  rw [countP_sitemap_calls, (hperm h).countP_eq, bookCalls_sitemap]

theorem genBook_records_urls_witness :
    allOk.Loadable ∧ (∀ k, allOk.mkdirAll k book3x2.destDir = true) ∧ State.init.WF allOk ∧
    (genBookSched allOk book3x2 [2, 0, 1, 1, 0, 2, 2, 1] State.init).1 = Outcome.ok () ∧
    (newEvents State.init
      (genBookSched allOk book3x2 [2, 0, 1, 1, 0, 2, 2, 1] State.init).2).countP Event.isSitemap
        = 1 + 3 + 6 :=
  ⟨allOk_noFailure.1, fun _ => rfl, wf_init allOk, by decide!,
    (genBook_records_urls allOk book3x2 [2, 0, 1, 1, 0, 2, 2, 1] State.init allOk_noFailure.1
      (fun _ => rfl) (wf_init allOk)).2 (by decide!)⟩

/-- C3, as stated, fails: for the book of 3 chapters with 2 articles each, in a
world where nothing fails, one run of `genBook` calls `addSitemapURL` 10 times,
not 3 + 6 = 9, with the goroutines one after the other as well as interleaved;
the tenth URL is the one of the book itself. -/
theorem three_by_two_records_ten :
    book3x2.Chapters.map (fun chapter => chapter.Articles.length) = [2, 2, 2] ∧
    (genBook allOk book3x2 State.init).1 = Outcome.ok () ∧
    (newEvents State.init (genBook allOk book3x2 State.init).2).countP Event.isSitemap = 10 ∧
    (newEvents State.init
      (genBookSched allOk book3x2 [2, 0, 1, 1, 0, 2, 2, 1] State.init).2).countP Event.isSitemap
        = 10 ∧
    (newEvents State.init (genBook allOk book3x2 State.init).2).countP Event.isSitemap
      ≠ 3 + 6 := by
  decide!

namespace FanOut

theorem countP_set (p : Worker → Bool) (l : List Worker) (i : Nat) (a b : Worker)
    (h : l.get? i = some a) :
    (l.set i b).countP p + (if p a then 1 else 0) = l.countP p + (if p b then 1 else 0) := by
  induction l generalizing i with
  | nil => simp at h
  | cons x rest ih =>
    cases i with
    | zero =>
      simp only [List.get?_cons_zero, Option.some.injEq] at h
      subst h
      simp only [List.set_cons_zero, List.countP_cons]
      omega
    | succ k =>
      simp only [List.get?_cons_succ] at h
      have := ih k h
      simp only [List.set_cons_succ, List.countP_cons]
      omega

theorem get?_set (l : List Worker) (i j : Nat) (b : Worker) (h : i < l.length) :
    (l.set i b).get? j = if i = j then some b else l.get? j := by
  simp only [List.get?_eq_getElem?, List.getElem?_set]
  split_ifs <;> simp_all

theorem inv_init (N K : Nat) : Inv N K (init N) := by
  refine ⟨by simp [init], ?_, by simp [init], ?_, ?_, ?_, ?_⟩
  · have : (List.replicate N Worker.notLaunched).countP Worker.holdsSlot = 0 := by
      simp [List.countP_eq_zero, Worker.holdsSlot]
    simp only [init, this]
    split_ifs <;> rfl
  · have : (List.replicate N Worker.notLaunched).countP Worker.counted = 0 := by
      simp [List.countP_eq_zero, Worker.counted]
    simp only [init, this]
    split_ifs <;> rfl
  · intro i h
    simp only [init] at h
    split_ifs at h with h0 <;> simp at h
    omega
  · intro j hj
    simp only [init, List.get?_eq_getElem?, List.getElem?_replicate, hj, if_true]
    split_ifs with h0
    · simp [launchedUpTo]
    · omega
  · intro h
    simp [init]

theorem get?_lt (l : List Worker) (i : Nat) (w : Worker) (h : l.get? i = some w) :
    i < l.length := by
  by_contra hlt
  rw [List.get?_eq_none.2 (by omega)] at h
  exact absurd h (by simp)

theorem inv_update (N K : Nat) (c : Cfg) (i : Nat) (w w1 : Worker) (sem1 wg1 : Nat)
    (h : Inv N K c) (hget : c.workers.get? i = some w)
    (hw : w ≠ Worker.notLaunched) (hw1 : w1 ≠ Worker.notLaunched)
    (hsem : sem1 + (if w.holdsSlot then 1 else 0) = c.sem + (if w1.holdsSlot then 1 else 0))
    (hwg : wg1 + (if w.counted then 1 else 0) = c.wg + (if w1.counted then 1 else 0))
    (hle : sem1 ≤ c.sem) (hret : c.pc = MainPC.returned → wg1 = 0) :
    Inv N K { pc := c.pc, workers := c.workers.set i w1, sem := sem1, wg := wg1 } := by
  have hi := get?_lt _ _ _ hget
  have h1 := countP_set Worker.holdsSlot c.workers i w w1 hget
  have h2 := countP_set Worker.counted c.workers i w w1 hget
  have hs := h.slots
  have hc := h.count
  refine ⟨by simp [h.len], ?_, ?_, ?_, h.idx, ?_, hret⟩
  · simp only; omega
  · have := h.bound; simp only; omega
  · simp only; omega
  · intro j hj
    simp only
    rw [get?_set _ _ _ _ hi]
    by_cases hij : i = j
    · subst hij
      simp only [if_true, Option.some.injEq]
      constructor
      · intro e; exact absurd e hw1
      · intro hle
        have := (h.fresh i hj).2 hle
        rw [hget] at this
        simp only [Option.some.injEq] at this
        exact absurd this hw
    · simp only [hij, if_false]
      exact h.fresh j hj

theorem inv_stepWorker (N K : Nat) (c c1 : Cfg) (i : Nat) (h : Inv N K c)
    (hs : stepWorker c i = some c1) : Inv N K c1 := by
  unfold stepWorker at hs
  cases hget : c.workers.get? i with
  | none => rw [hget] at hs; simp at hs
  | some w =>
    rw [hget] at hs
    cases w with
    | notLaunched => simp at hs
    | exited => simp at hs
    | launched =>
      simp only [Option.some.injEq] at hs
      subst hs
      exact inv_update N K c i _ _ c.sem c.wg h hget (by simp) (by simp)
        (by simp [Worker.holdsSlot]) (by simp [Worker.counted]) (Nat.le_refl _) h.joined
    | inChapter =>
      simp only [Option.some.injEq] at hs
      subst hs
      exact inv_update N K c i _ _ c.sem c.wg h hget (by simp) (by simp)
        (by simp [Worker.holdsSlot]) (by simp [Worker.counted]) (Nat.le_refl _) h.joined
    | finished =>
      simp only at hs
      split_ifs at hs with hz
      simp only [Option.some.injEq] at hs
      subst hs
      refine inv_update N K c i _ _ c.sem (c.wg - 1) h hget (by simp) (by simp)
        (by simp [Worker.holdsSlot]) ?_ (Nat.le_refl _) ?_
      · simp only [Worker.counted, if_true, Bool.false_eq_true, if_false]; omega
      · intro hr; have := h.joined hr; omega
    | signalled =>
      simp only at hs
      split_ifs at hs with hz
      simp only [Option.some.injEq] at hs
      subst hs
      refine inv_update N K c i _ _ (c.sem - 1) c.wg h hget (by simp) (by simp)
        ?_ (by simp [Worker.counted]) (Nat.sub_le _ _) h.joined
      simp only [Worker.holdsSlot, if_true, Bool.false_eq_true, if_false]; omega

theorem launchedUpTo_nextIter (N i : Nat) (hi : i < N) :
    launchedUpTo N (nextIter N i) = i + 1 := by
  unfold nextIter
  split_ifs with h
  · rfl
  · simp only [launchedUpTo]; omega

theorem mainSlot_nextIter (N i : Nat) : mainSlot (nextIter N i) = 0 := by
  unfold nextIter; split_ifs <;> rfl

theorem mainCount_nextIter (N i : Nat) : mainCount (nextIter N i) = 0 := by
  unfold nextIter; split_ifs <;> rfl

theorem inv_stepMain (N K : Nat) (c c1 : Cfg) (h : Inv N K c)
    (hs : stepMain N K c = some c1) : Inv N K c1 := by
  unfold stepMain at hs
  have hslots := h.slots
  have hcount := h.count
  cases hpc : c.pc with
  | send i =>
    rw [hpc] at hs hslots hcount
    simp only at hs
    split_ifs at hs with hlt
    simp only [Option.some.injEq] at hs
    subst hs
    refine ⟨h.len, ?_, ?_, ?_, ?_, ?_, by simp⟩
    · simp only [mainSlot] at hslots ⊢; omega
    · simp only; omega
    · simp only [mainCount] at hcount ⊢; omega
    · intro k hk
      rcases hk with hk | hk | hk <;> cases hk
      exact h.idx _ (Or.inl hpc)
    · intro j hj
      have := h.fresh j hj
      rw [hpc] at this
      exact this
  | add i =>
    rw [hpc] at hs hslots hcount
    simp only [Option.some.injEq] at hs
    subst hs
    refine ⟨h.len, ?_, h.bound, ?_, ?_, ?_, by simp⟩
    · simp only [mainSlot] at hslots ⊢; omega
    · simp only [mainCount] at hcount ⊢; omega
    · intro k hk
      rcases hk with hk | hk | hk <;> cases hk
      exact h.idx _ (Or.inr (Or.inl hpc))
    · intro j hj
      have := h.fresh j hj
      rw [hpc] at this
      exact this
  | spawn i =>
    rw [hpc] at hs hslots hcount
    simp only [Option.some.injEq] at hs
    subst hs
    have hi : i < N := h.idx _ (Or.inr (Or.inr hpc))
    have hfr := h.fresh
    rw [hpc] at hfr
    have hget : c.workers.get? i = some Worker.notLaunched :=
      (hfr i hi).2 (Nat.le_refl _)
    have h1 := countP_set Worker.holdsSlot c.workers i _ Worker.launched hget
    have h2 := countP_set Worker.counted c.workers i _ Worker.launched hget
    simp only [Worker.holdsSlot, Worker.counted, Bool.false_eq_true, if_false, if_true] at h1 h2
    refine ⟨by simp [h.len], ?_, h.bound, ?_, ?_, ?_, ?_⟩
    · simp only [mainSlot] at hslots
      simp only [mainSlot_nextIter]
      omega
    · simp only [mainCount] at hcount
      simp only [mainCount_nextIter]
      omega
    · intro k hk
      simp only [nextIter] at hk
      split_ifs at hk with hlt <;> simp at hk
      omega
    · intro j hj
      simp only [launchedUpTo_nextIter N i hi]
      rw [get?_set _ _ _ _ (by rw [h.len]; exact hi)]
      by_cases hij : i = j
      · subst hij
        simp
      · simp only [hij, if_false]
        rw [hfr j hj]
        simp only [launchedUpTo]
        omega
    · intro hr
      simp only [nextIter] at hr
      split_ifs at hr
  | wait =>
    rw [hpc] at hs hslots hcount
    simp only at hs
    split_ifs at hs with hz
    simp only [Option.some.injEq] at hs
    subst hs
    refine ⟨h.len, ?_, h.bound, ?_, by simp, ?_, fun _ => hz⟩
    · simp only [mainSlot] at hslots ⊢; omega
    · simp only [mainCount] at hcount ⊢; omega
    · intro j hj
      have := h.fresh j hj
      rw [hpc] at this
      exact this
  | returned =>
    rw [hpc] at hs
    simp at hs

theorem inv_run (N K : Nat) (sched : List Action) (c c1 : Cfg) (h : Inv N K c)
    (hr : run N K c sched = some c1) : Inv N K c1 := by
  induction sched generalizing c with
  | nil =>
    simp only [run, Option.some.injEq] at hr
    subst hr
    exact h
  | cons a rest ih =>
    simp only [run] at hr
    cases hs : step N K c a with
    | none => rw [hs] at hr; simp at hr
    | some c2 =>
      rw [hs] at hr
      refine ih c2 ?_ hr
      cases a with
      | main => exact inv_stepMain N K c c2 h hs
      | worker i => exact inv_stepWorker N K c c2 i h hs

theorem inv_reachable (N K : Nat) (c : Cfg) (h : Reachable N K c) : Inv N K c := by
  obtain ⟨sched, hr⟩ := h
  exact inv_run N K sched _ c (inv_init N K) hr

theorem countP_le_of_imp (p q : Worker → Bool) (l : List Worker)
    (h : ∀ w, p w = true → q w = true) : l.countP p ≤ l.countP q :=
  List.countP_mono_left (fun w _ hw => h w hw)

/-- C1. In every configuration that any interleaving of the main goroutine and
the chapter goroutines reaches, for a book of `N` chapters and a limiter of
capacity `K`, the number of `genChapter` calls that have started and not yet
returned is at most `K` (and at most the number of values held by `book.sem`). -/
theorem inFlight_le_capacity (N K : Nat) (c : Cfg) (h : Reachable N K c) :
    inFlight c ≤ K ∧ inFlight c ≤ c.sem := by
  have hinv := inv_reachable N K c h
  have h1 : inFlight c ≤ c.workers.countP Worker.holdsSlot :=
    countP_le_of_imp _ _ _ (fun w hw => by
      cases w <;> simp_all [Worker.rendering, Worker.holdsSlot])
  have h2 := hinv.slots
  have h3 := hinv.bound
  constructor <;> omega

theorem inFlight_le_capacity_witness :
    Reachable 3 2 twoInFlight ∧ inFlight twoInFlight = 2 ∧ inFlight twoInFlight ≤ 2 :=
  ⟨⟨twoAtOnce, by decide⟩, by decide,
   (inFlight_le_capacity 3 2 twoInFlight ⟨twoAtOnce, by decide⟩).1⟩

/-- C2. In every reachable configuration in which `book.wg.Wait()` has
returned, the counter of `book.wg` is zero, no `genChapter` call is in progress
and, for each of the `N` chapters, the goroutine has been launched and its
`genChapter` call has returned. -/
theorem returned_after_all_rendered (N K : Nat) (c : Cfg) (h : Reachable N K c)
    (hret : c.pc = MainPC.returned) :
    c.wg = 0 ∧ inFlight c = 0 ∧ c.workers.length = N ∧
    ∀ j, j < N → ∃ w, c.workers.get? j = some w ∧ w.rendered = true := by
  have hinv := inv_reachable N K c h
  have hwg := hinv.joined hret
  have hcount := hinv.count
  have hzero : c.workers.countP Worker.counted = 0 := by omega
  have hnone : ∀ w ∈ c.workers, w.counted = false := by
    intro w hw
    have := (List.countP_eq_zero.1 hzero) w hw
    simpa using this
  have hfl : inFlight c = 0 := by
    have : inFlight c ≤ c.workers.countP Worker.counted :=
      countP_le_of_imp _ _ _ (fun w hw => by
        cases w <;> simp_all [Worker.rendering, Worker.counted])
    omega
  refine ⟨hwg, hfl, hinv.len, ?_⟩
  intro j hj
  have hlt : j < c.workers.length := by rw [hinv.len]; exact hj
  refine ⟨c.workers.get ⟨j, hlt⟩, List.get?_eq_get hlt, ?_⟩
  have hmem : c.workers.get ⟨j, hlt⟩ ∈ c.workers := List.get_mem _ _ _
  have hc := hnone _ hmem
  have hfresh := hinv.fresh j hj
  rw [hret] at hfresh
  simp only [launchedUpTo] at hfresh
  have hnl : c.workers.get ⟨j, hlt⟩ ≠ Worker.notLaunched := by
    intro e
    have : c.workers.get? j = some Worker.notLaunched := by rw [List.get?_eq_get hlt, e]
    have := hfresh.1 this
    omega
  revert hc hnl
  cases c.workers.get ⟨j, hlt⟩ <;> simp [Worker.counted, Worker.rendered]

theorem returned_after_all_rendered_witness :
    Reachable 2 1 joined ∧ joined.pc = MainPC.returned ∧
    (joined.wg = 0 ∧ inFlight joined = 0 ∧ joined.workers.length = 2 ∧
      ∀ j, j < 2 → ∃ w, joined.workers.get? j = some w ∧ w.rendered = true) :=
  ⟨⟨joinEarly, by decide⟩, rfl,
   returned_after_all_rendered 2 1 joined ⟨joinEarly, by decide⟩ rfl⟩

theorem get?_mid (ex rest : List Worker) (w : Worker) :
    (ex ++ w :: rest).get? ex.length = some w := by
  induction ex with
  | nil => rfl
  | cons x xs ih => simpa using ih

theorem set_mid (ex rest : List Worker) (w w1 : Worker) :
    (ex ++ w :: rest).set ex.length w1 = ex ++ w1 :: rest := by
  induction ex with
  | nil => rfl
  | cons x xs ih => simp [ih]

theorem run_append (N K : Nat) (c : Cfg) (s1 s2 : List Action) :
    run N K c (s1 ++ s2) = (run N K c s1).bind (fun c1 => run N K c1 s2) := by
  induction s1 generalizing c with
  | nil => rfl
  | cons a rest ih =>
    simp only [List.cons_append, run]
    cases step N K c a with
    | none => rfl
    | some c1 => exact ih c1

theorem stepWorker_launched (pc : MainPC) (ex rest : List Worker) (sem wg : Nat) :
    stepWorker { pc := pc, workers := ex ++ Worker.launched :: rest, sem := sem, wg := wg }
        ex.length
      = some { pc := pc, workers := ex ++ Worker.inChapter :: rest, sem := sem, wg := wg } := by
  unfold stepWorker
  simp only [get?_mid, set_mid]

theorem stepWorker_inChapter (pc : MainPC) (ex rest : List Worker) (sem wg : Nat) :
    stepWorker { pc := pc, workers := ex ++ Worker.inChapter :: rest, sem := sem, wg := wg }
        ex.length
      = some { pc := pc, workers := ex ++ Worker.finished :: rest, sem := sem, wg := wg } := by
  unfold stepWorker
  simp only [get?_mid, set_mid]

theorem stepWorker_finished (pc : MainPC) (ex rest : List Worker) (sem wg : Nat) :
    stepWorker { pc := pc, workers := ex ++ Worker.finished :: rest, sem := sem, wg := wg + 1 }
        ex.length
      = some { pc := pc, workers := ex ++ Worker.signalled :: rest, sem := sem, wg := wg } := by
  unfold stepWorker
  simp only [get?_mid, set_mid]
  simp

theorem stepWorker_signalled (pc : MainPC) (ex rest : List Worker) (sem wg : Nat) :
    stepWorker { pc := pc, workers := ex ++ Worker.signalled :: rest, sem := sem + 1, wg := wg }
        ex.length
      = some { pc := pc, workers := ex ++ Worker.exited :: rest, sem := sem, wg := wg } := by
  unfold stepWorker
  simp only [get?_mid, set_mid]
  simp

/-- One round of the sequential schedule: a slot is taken, the goroutine of
chapter `ex.length` is launched and runs to its end. -/
theorem run_round (N K : Nat) (hK : 1 ≤ K) (ex rest : List Worker) :
    run N K { pc := MainPC.send ex.length, workers := ex ++ Worker.notLaunched :: rest,
              sem := 0, wg := 0 }
      [Action.main, Action.main, Action.main, Action.worker ex.length, Action.worker ex.length,
        Action.worker ex.length, Action.worker ex.length]
      = some { pc := nextIter N ex.length, workers := ex ++ Worker.exited :: rest,
               sem := 0, wg := 0 } := by
  have hK0 : 0 < K := hK
  simp only [run, step, stepMain, hK0, if_true, set_mid, Nat.zero_add,
    stepWorker_launched, stepWorker_inChapter, stepWorker_finished, stepWorker_signalled]

/-- The sequential schedule, started when the first `ex.length` chapters are
done and `n` remain, ends past `book.wg.Wait()` with every goroutine over. -/
theorem run_seqSchedule (N K : Nat) (hK : 1 ≤ K) (n : Nat) (ex : List Worker)
    (hN : ex.length + n = N) :
    run N K (between (if ex.length < N then MainPC.send ex.length else MainPC.wait) ex n)
        (seqSchedule ex.length n)
      = some { pc := MainPC.returned, workers := ex ++ List.replicate n Worker.exited,
               sem := 0, wg := 0 } := by
  induction n generalizing ex with
  | zero =>
    have : ¬ ex.length < N := by omega
    simp [between, this, seqSchedule, run, step, stepMain]
  | succ k ih =>
    have hlt : ex.length < N := by omega
    simp only [between, hlt, if_true, seqSchedule, List.replicate_succ]
    rw [run_append, run_round N K hK ex (List.replicate k Worker.notLaunched)]
    simp only [Option.bind]
    have hlen : (ex ++ [Worker.exited]).length = ex.length + 1 := by simp
    have := ih (ex ++ [Worker.exited]) (by rw [hlen]; omega)
    rw [hlen] at this
    simp only [between, List.append_assoc, List.singleton_append] at this
    unfold nextIter
    rw [this]

/-- For every number of chapters and every limiter of capacity at least 1 some
interleaving gets past `book.wg.Wait()`: the join of line 258 can be passed. -/
theorem wait_can_return (N K : Nat) (hK : 1 ≤ K) :
    Reachable N K { pc := MainPC.returned, workers := List.replicate N Worker.exited,
                    sem := 0, wg := 0 } := by
  refine ⟨seqSchedule 0 N, ?_⟩
  have := run_seqSchedule N K hK N [] (by simp)
  simpa [between, init] using this

end FanOut

end GenBooks
